import Mathlib

/-!
A shallow embedding of the BASIC emulator core of this repository
(value layer, keyword normalizer, recursive-descent parser, PRG
detokenizer and step-wise interpreter), together with theorems that
settle the frozen claims about it.

Modelling conventions, used throughout and noted again at each site:
* Rust f64 is modelled by the exact rationals (the claims under proof
  concern control flow, string formatting and integer-valued data, where
  the exact rationals and IEEE doubles agree on the inputs involved);
* Rust usize / u32 / u8 casts keep their wrapping or saturating
  behaviour, made explicit over Nat and Int;
* Vec-based stacks are modelled as lists with the top at the head;
* HashMap is modelled as an association list (insert replaces);
* BTreeMap is modelled as a key-sorted association list, and the
  iteration-order-dependent operations (first key, first key after) are
  modelled as minima over the key set, which is what ascending iteration
  yields;
* the shared Screen sink is modelled as the list of emitted events.
-/

namespace FMBasic

attribute [local semireducible] Rat.inv Rat.mul Rat.add Rat.sub

/-- Decimal digit characters of a natural number; the structural fuel
(first argument) makes the definition reduce inside the kernel, and any
fuel of at least n suffices. -/
def natDigitsAux : ℕ → ℕ → List Char
  | 0, _ => []
  | fuel + 1, n =>
      if n < 10 then [Char.ofNat (48 + n)]
      else natDigitsAux fuel (n / 10) ++ [Char.ofNat (48 + n % 10)]

/-- Decimal digit characters of a natural number, mirroring the Rust
Display formatting of unsigned integers. -/
def natToString (n : ℕ) : String :=
  String.mk (natDigitsAux (n + 1) n)

/-- Decimal rendering of an integer, mirroring Rust format of i64. -/
def intToString (i : ℤ) : String :=
  if i < 0 then "-" ++ natToString i.natAbs else natToString i.toNat

/-- Left-pad a string with zeros to the given width, used for the
fractional digits of fixed-point formatting. -/
def padLeftZeros (w : ℕ) (s : String) : String :=
  String.mk (List.replicate (w - s.length) '0') ++ s

/-- Rust trim_end_matches for a single pattern character. -/
def trim_end_matches (s : String) (c : Char) : String :=
  String.mk ((s.data.reverse.dropWhile (fun x => x == c)).reverse)

/-- Round to the nearest integer, ties to even, as Rust fixed-precision
float formatting does on the value being printed. -/
def roundHalfEven (r : ℚ) : ℤ :=
  let f := ⌊r⌋
  let frac := r - (f : ℚ)
  if frac < 1/2 then f
  else if (1:ℚ)/2 < frac then f + 1
  else if f % 2 = 0 then f else f + 1

/-- The Rust formatting of a float with 9 fractional digits, modelled on
the exact rationals: the magnitude is rounded half-to-even at the ninth
fractional digit and printed with the integer part, a point, and nine
digits, with a leading minus sign for negative values. -/
def format_fixed9 (q : ℚ) : String :=
  let N : ℕ := (roundHalfEven (|q| * 10 ^ 9)).toNat
  let ip := N / 10 ^ 9
  let fp := N % 10 ^ 9
  (if q < 0 then "-" else "") ++ natToString ip ++ "." ++ padLeftZeros 9 (natToString fp)

/-- Value: tagged number/string union of the value layer (value.rs).
The source constructors are Number and String; they are named num and
str here so that the String payload type stays visible inside the Value
namespace.  The Number payload is f64 in the source, modelled by ℚ. -/
inductive Value where
  | num : ℚ → Value
  | str : String → Value
deriving DecidableEq

/-- Value::as_number (value.rs): numbers pass through, strings are a
type mismatch. -/
def Value.as_number : Value → Except String ℚ
  | .num n => .ok n
  | .str _ => .error "Type mismatch: expected number"

/-- Value::as_string (value.rs). -/
def Value.as_string : Value → Except String String
  | .str s => .ok s
  | .num _ => .error "Type mismatch: expected string"

/-- Value::as_int (value.rs): floor of the numeric value. -/
def Value.as_int (v : Value) : Except String ℤ := do
  let n ← v.as_number
  .ok ⌊n⌋

/-- Value::is_truthy (value.rs): nonzero number or nonempty string. -/
def Value.is_truthy : Value → Bool
  | .num n => decide (n ≠ 0)
  | .str s => !s.isEmpty

/-- Value::to_display_string (value.rs): integral numbers below 1e10 in
magnitude render as plain integers; otherwise the value is rendered
with nine fractional digits and the trailing zeros and trailing point
are trimmed; non-negative numbers get one leading space.  The rendered
fixed-point string always contains a point, so the contains check of
the source is always true and the trimming is applied directly. -/
def Value.to_display_string : Value → String
  | .num n =>
      let formatted :=
        if n.den = 1 ∧ |n| < 10 ^ 10 then
          intToString n.num
        else
          trim_end_matches (trim_end_matches (format_fixed9 n) '0') '.'
      if 0 ≤ n then " " ++ formatted else formatted
  | .str s => s

example : Value.to_display_string (.num 5) = " 5" := by decide
example : Value.to_display_string (.num (5/2)) = " 2.5" := by decide
example : Value.to_display_string (.num (-3)) = "-3" := by decide
example : Value.to_display_string (.num (10/3)) = " 3.333333333" := by decide

/-! ### Abstract syntax (parser.rs data types) -/

/-- BinOp (parser.rs). -/
inductive BinOp where
  | Add | Sub | Mul | Div | Pow
  | Eq | Ne | Lt | Le | Gt | Ge
  | And | Or
deriving DecidableEq

/-- UnOp (parser.rs). -/
inductive UnOp where
  | Neg | Not
deriving DecidableEq

/-- Expr (parser.rs); f64 literals are modelled by ℚ. -/
inductive Expr where
  | Number : ℚ → Expr
  | String : String → Expr
  | Variable : String → Expr
  | ArrayAccess : String → List Expr → Expr
  | BinaryOp : Expr → BinOp → Expr → Expr
  | UnaryOp : UnOp → Expr → Expr
  | FunctionCall : String → List Expr → Expr

/-- PrintItem (parser.rs). -/
inductive PrintItem where
  | Expr : Expr → PrintItem
  | Tab : Expr → PrintItem
  | Spc : Expr → PrintItem
  | Comma

/-- PrintStatement (parser.rs). -/
structure PrintStatement where
  items : List PrintItem
  trailing_semicolon : Bool

/-- InputStatement (parser.rs); the source field named variable is
written variable_ because variable is a Lean keyword. -/
structure InputStatement where
  prompt : Option String
  variable_ : String

/-- LetStatement (parser.rs); variable_ models the source field named
variable. -/
structure LetStatement where
  variable_ : String
  index : Option (List Expr)
  value : Expr

/-- ForStatement (parser.rs); the source field named end is written
end_ because end is a Lean keyword. -/
structure ForStatement where
  variable_ : String
  start : Expr
  end_ : Expr
  step : Option Expr

/-- DimDeclaration (parser.rs). -/
structure DimDeclaration where
  name : String
  dimensions : List Expr

/-- Statement (parser.rs); line numbers (u32 in the source) are ℕ.
The fields of the source struct IfStatement (condition, then_branch,
then_line) are inlined into the If constructor because the struct and
the statement type are mutually recursive. -/
inductive Statement where
  | Print : PrintStatement → Statement
  | Input : InputStatement → Statement
  | Let : LetStatement → Statement
  | If : Expr → List Statement → Option ℕ → Statement
  | Goto : ℕ → Statement
  | Gosub : ℕ → Statement
  | Return : Statement
  | For : ForStatement → Statement
  | Next : Option String → Statement
  | Dim : List DimDeclaration → Statement
  | Data : List String → Statement
  | Read : List String → Statement
  | Poke : Expr → Expr → Statement
  | End : Statement
  | Rem : String → Statement

/-! ### Association-list model of HashMap and BTreeMap -/

/-- HashMap get, modelled over an association list. -/
def getA {α : Type} (m : List (String × α)) (k : String) : Option α :=
  (m.find? (fun e => e.1 == k)).map (fun e => e.2)

/-- HashMap insert: replaces the value of an existing key, otherwise
appends a new binding. -/
def insertA {α : Type} (m : List (String × α)) (k : String) (v : α) :
    List (String × α) :=
  if m.any (fun e => e.1 == k) then
    m.map (fun e => if e.1 == k then (k, v) else e)
  else
    m ++ [(k, v)]

/-- BTreeMap insert over a key-sorted association list: keeps keys
sorted and unique, replacing the value of an existing key. -/
def btreeInsert (m : List (ℕ × List Statement)) (k : ℕ) (v : List Statement) :
    List (ℕ × List Statement) :=
  match m with
  | [] => [(k, v)]
  | e :: rest =>
      if k < e.1 then (k, v) :: e :: rest
      else if k = e.1 then (k, v) :: rest
      else e :: btreeInsert rest k v

/-- Smallest element of a list of keys; ascending BTreeMap iteration
yields exactly this key first. -/
def minKey? : List ℕ → Option ℕ
  | [] => none
  | k :: ks =>
      match minKey? ks with
      | none => some k
      | some m => some (min k m)

/-- Program (parser.rs): a BTreeMap from line number to statement list,
modelled as a key-sorted association list. -/
structure Program where
  lines : List (ℕ × List Statement)

/-- Program::new (parser.rs). -/
def Program.new : Program := ⟨[]⟩

/-- BTreeMap get on the lines of a program. -/
def Program.get (p : Program) (n : ℕ) : Option (List Statement) :=
  (p.lines.find? (fun e => e.1 == n)).map (fun e => e.2)

/-- The declared line numbers of a program. -/
def Program.keys (p : Program) : List ℕ := p.lines.map (fun e => e.1)

/-- The smallest declared line number: what keys().next() yields on the
ascending BTreeMap iterator (interpreter.rs load_program). -/
def Program.first_key (p : Program) : Option ℕ := minKey? p.keys

/-- The smallest declared line number strictly greater than cur: what
keys().find(k > cur) yields on the ascending BTreeMap iterator
(interpreter.rs advance_to_next_line). -/
def Program.next_key_after (p : Program) (cur : ℕ) : Option ℕ :=
  minKey? (p.keys.filter (fun k => decide (cur < k)))

/-! ### Normalizer (parser.rs, Parser::normalize_keywords)

Each pass is an index-driven loop over an immutable char vector; the
loops are modelled with a structural fuel argument so that they reduce
inside the kernel.  Every iteration advances the index by at least one,
so any fuel of at least the vector length plus one is sufficient and
the fuel-exhausted branch is never reached from the entry points. -/

/-- True when the characters of kw occur in chars starting at index i;
this combines the length guard and the slice comparison of the source. -/
def sliceIs (chars : List Char) (i : ℕ) (kw : String) : Bool :=
  (chars.drop i).take kw.length == kw.data

/-- The statement keyword list of the first normalization pass, in
source order. -/
def statement_keywords : List String :=
  ["RETURN", "GOSUB", "INPUT", "PRINT", "GOTO", "THEN", "NEXT",
   "DATA", "READ", "POKE", "FOR", "DIM", "END", "REM", "IF"]

/-- The first statement keyword of the priority list matching at index
i, as found by the `for keyword in &statement_keywords` loop. -/
def find_statement_keyword (chars : List Char) (i : ℕ) : Option String :=
  statement_keywords.find? (fun kw => sliceIs chars i kw)

/-- First normalization pass: statement keywords win anywhere outside
string literals, and a space is inserted after a matched keyword when
the next character is ASCII alphanumeric, a dollar or a percent sign. -/
def normalize_pass1 (chars : List Char) : ℕ → ℕ → Bool → String → String
  | 0, _, _, acc => acc
  | fuel + 1, i, in_string, acc =>
      match chars.get? i with
      | none => acc
      | some c =>
          if c = '"' then
            normalize_pass1 chars fuel (i + 1) (!in_string) (acc.push '"')
          else if in_string then
            normalize_pass1 chars fuel (i + 1) in_string (acc.push c)
          else
            match find_statement_keyword chars i with
            | some kw =>
                let acc := acc ++ kw
                let acc :=
                  match chars.get? (i + kw.length) with
                  | some next =>
                      if next.isAlphanum || next = '$' || next = '%' then acc.push ' '
                      else acc
                  | none => acc
                normalize_pass1 chars fuel (i + kw.length) in_string acc
            | none => normalize_pass1 chars fuel (i + 1) in_string (acc.push c)

/-- Identifier classification of the second pass: the source uses
char::is_alphanumeric plus the dollar and percent variable suffixes;
on the ASCII program text handled here Char.isAlphanum agrees with it. -/
def is_identifier_char (c : Char) : Bool :=
  c.isAlphanum || c = '$' || c = '%'

/-- prev_not_id of the second pass: no preceding character, or a
preceding character that is not an identifier character. -/
def prev_not_id (chars : List Char) (i : ℕ) : Bool :=
  if i = 0 then true
  else
    match chars.get? (i - 1) with
    | none => true
    | some c => !is_identifier_char c

/-- next_not_id of the second pass, for the character at index j (the
first index after the matched keyword). -/
def next_not_id (chars : List Char) (j : ℕ) : Bool :=
  match chars.get? j with
  | none => true
  | some c => !is_identifier_char c

/-- The should_normalize condition of the second pass, literally as in
the source: both sides boundary, both sides identifier, or boundary
before and identifier after. -/
def should_normalize (p n : Bool) : Bool :=
  (p && n) || (!p && !n) || (p && !n)

/-- Second normalization pass: AND and OR outside string literals are
spaced out exactly when should_normalize holds of the neighbour
classification; AND is tried first, and a non-normalized occurrence
falls through to copying one character. -/
def normalize_pass2 (chars : List Char) : ℕ → ℕ → Bool → String → String
  | 0, _, _, acc => acc
  | fuel + 1, i, in_string, acc =>
      match chars.get? i with
      | none => acc
      | some ch =>
          if ch = '"' then
            normalize_pass2 chars fuel (i + 1) (!in_string) (acc.push ch)
          else if in_string then
            normalize_pass2 chars fuel (i + 1) in_string (acc.push ch)
          else if sliceIs chars i "AND" &&
              should_normalize (prev_not_id chars i) (next_not_id chars (i + 3)) then
            normalize_pass2 chars fuel (i + 3) in_string (acc ++ " AND ")
          else if sliceIs chars i "OR" &&
              should_normalize (prev_not_id chars i) (next_not_id chars (i + 2)) then
            normalize_pass2 chars fuel (i + 2) in_string (acc ++ " OR ")
          else
            normalize_pass2 chars fuel (i + 1) in_string (acc.push ch)

/-- Third normalization pass: inside a FOR header (from a FOR keyword
up to a colon or line end) and after an equals sign, the first TO is
unconditionally spaced out and only one TO is consumed per header. -/
def normalize_pass3 (chars : List Char) : ℕ → ℕ → Bool → Bool → String → String
  | 0, _, _, _, acc => acc
  | fuel + 1, i, in_for_loop, seen_equals, acc =>
      match chars.get? i with
      | none => acc
      | some c =>
          let starts_for := sliceIs chars i "FOR "
          let in_for_loop := starts_for || in_for_loop
          let seen_equals := if starts_for then false else seen_equals
          let seen_equals := if in_for_loop && c = '=' then true else seen_equals
          let ends_stmt := c = ':' || c = '\n'
          let in_for_loop := if ends_stmt then false else in_for_loop
          let seen_equals := if ends_stmt then false else seen_equals
          if in_for_loop && seen_equals && sliceIs chars i "TO" then
            normalize_pass3 chars fuel (i + 2) false seen_equals (acc ++ " TO ")
          else
            normalize_pass3 chars fuel (i + 1) in_for_loop seen_equals (acc.push c)

/-- Parser::normalize_keywords (parser.rs): the three passes in order. -/
def normalize_keywords (input : String) : String :=
  let c0 := input.data
  let r1 := normalize_pass1 c0 (c0.length + 1) 0 false ""
  let c1 := r1.data
  let r2 := normalize_pass2 c1 (c1.length + 1) 0 false ""
  let c2 := r2.data
  normalize_pass3 c2 (c2.length + 1) 0 false false ""

example :
    normalize_keywords "10 IFXZ>8ANDXZ<=2THENKJ=2" = "10 IF XZ>8 AND XZ<=2THEN KJ=2" := rfl
example :
    normalize_keywords "10 FOR PZ=HZTOHZ+15" = "10 FOR PZ=HZ TO HZ+15" := rfl
example :
    normalize_keywords "10 PRINT \"[BORDERS]\"" = "10 PRINT \"[BORDERS]\"" := rfl

/-- str::to_uppercase, modelled per character; on the ASCII program
text Char.toUpper agrees with the Unicode uppercasing of the source. -/
def to_uppercase (s : String) : String := String.mk (s.data.map Char.toUpper)

/-- str::trim: leading and trailing whitespace removed. -/
def trimChars (s : String) : String :=
  String.mk (((s.data.dropWhile Char.isWhitespace).reverse.dropWhile Char.isWhitespace).reverse)

/-- Split a string at newline characters (the line iteration of
parse_program; the per-line trim also removes any carriage return). -/
def splitLinesAux : List Char → List Char → List String
  | [], acc => [String.mk acc.reverse]
  | c :: rest, acc =>
      if c = '\n' then String.mk acc.reverse :: splitLinesAux rest []
      else splitLinesAux rest (c :: acc)

/-- Split a string into its newline-separated lines. -/
def splitLines (s : String) : List String := splitLinesAux s.data []

/-! ### Parser (parser.rs)

The parser functions return Except PErr: the err constructor is the
Result::Err channel of the source, while the abort constructor models a
process abort raised by the panic macro in consume_word — the two exits
are kept distinct because only the first one is an error value the
caller can observe.  The mutually recursive descent is driven by a
structural fuel argument so that it reduces inside the kernel; each
call consumes one unit, the descent depth is linear in the input
length, and the fuel-exhausted branch is unreachable from parse_program
with the generous fuel chosen there. -/

/-- Parse failure: an error value (err) or a process abort (abort). -/
inductive PErr where
  | err : String → PErr
  | abort : String → PErr
deriving DecidableEq

/-- Parser (parser.rs): normalized input plus cursor.  The source keeps
a String and uses the position both as a char count and as a byte
offset, which agree on the ASCII program text; here the input is the
char list. -/
structure Parser where
  input : List Char
  pos : ℕ

/-- Parser::new (parser.rs): uppercase, normalize, cursor at zero. -/
def Parser.new (input : String) : Parser :=
  ⟨(normalize_keywords (to_uppercase input)).data, 0⟩

/-- Parser::peek (parser.rs). -/
def Parser.peek (p : Parser) : Option Char := p.input.get? p.pos

/-- Parser::advance (parser.rs): returns the peeked character and
increments the position unconditionally. -/
def Parser.advance (p : Parser) : Option Char × Parser :=
  (p.peek, { p with pos := p.pos + 1 })

/-- Parser::is_at_end (parser.rs). -/
def Parser.is_at_end (p : Parser) : Bool := p.input.length ≤ p.pos

/-- Scan forward from pos while the predicate holds, returning the
first position where it fails; the fuel is structural and any fuel of
at least the remaining length suffices. -/
def scan_whileAux (chars : List Char) (f : Char → Bool) : ℕ → ℕ → ℕ
  | 0, pos => pos
  | fuel + 1, pos =>
      match chars.get? pos with
      | some c => if f c then scan_whileAux chars f fuel (pos + 1) else pos
      | none => pos

/-- Scan from the parser position while the predicate holds. -/
def Parser.scan_stop (p : Parser) (f : Char → Bool) : ℕ :=
  scan_whileAux p.input f (p.input.length + 1 - p.pos) p.pos

/-- Parser::skip_whitespace (parser.rs). -/
def Parser.skip_whitespace (p : Parser) : Parser :=
  { p with pos := p.scan_stop (fun c => c.isWhitespace) }

/-- Parser::expect (parser.rs). -/
def Parser.expect (p : Parser) (expected : Char) : Except PErr Parser :=
  let p := p.skip_whitespace
  match p.advance with
  | (some c, p1) =>
      if c = expected then .ok p1
      else .error (.err s!"Expected \x27{expected}\x27, found \x27{c}\x27")
  | (none, _) => .error (.err s!"Expected \x27{expected}\x27, found end of input")

/-- The substring of the input between two positions. -/
def Parser.slice (p : Parser) (start stop : ℕ) : String :=
  String.mk ((p.input.drop start).take (stop - start))

/-- The natural number denoted by a list of decimal digit characters. -/
def digitsToNat (cs : List Char) : ℕ :=
  cs.foldl (fun a c => a * 10 + (c.toNat - 48)) 0

/-- Rust f64 parsing restricted to the digit-and-point strings produced
by the number scanner: digits with at most one point and at least one
digit; the resulting value is kept exact in ℚ. -/
def parse_f64_plain (cs : List Char) : Option ℚ :=
  if cs.any (fun c => !(c.isDigit || c = '.')) then none
  else
    match cs.splitOn '.' with
    | [ip] => if ip.isEmpty then none else some (digitsToNat ip)
    | [ip, fp] =>
        if ip.isEmpty && fp.isEmpty then none
        else some (mkRat (digitsToNat ip * 10 ^ fp.length + digitsToNat fp) (10 ^ fp.length))
    | _ => none

/-- Parser::parse_number (parser.rs): scan digits and points, then
parse the slice as a float. -/
def Parser.parse_number (p : Parser) : Except PErr (ℚ × Parser) :=
  let p := p.skip_whitespace
  let start := p.pos
  let stop := p.scan_stop (fun c => c.isDigit || c = '.')
  match parse_f64_plain ((p.input.drop start).take (stop - start)) with
  | some q => .ok (q, { p with pos := stop })
  | none => .error (.err "Invalid number")

/-- The saturating f64-to-u32 cast used on parsed line numbers. -/
def f64_as_u32 (q : ℚ) : ℕ := min ⌊q⌋.toNat (2 ^ 32 - 1)

/-- Parser::parse_identifier (parser.rs): an alphabetic character
followed by alphanumerics, dollar or percent signs. -/
def Parser.parse_identifier (p : Parser) : Except PErr (String × Parser) :=
  let p := p.skip_whitespace
  match p.peek with
  | none => .error (.err "Unexpected end of input")
  | some c =>
      if !c.isAlpha then .error (.err s!"Expected identifier, found \x27{c}\x27")
      else
        let stop := p.scan_stop (fun c => c.isAlphanum || c = '$' || c = '%')
        .ok (p.slice p.pos stop, { p with pos := stop })

/-- Parser::parse_string_literal (parser.rs). -/
def Parser.parse_string_literal (p : Parser) : Except PErr (String × Parser) := do
  let p ← p.expect '"'
  let stop := p.scan_stop (fun c => c ≠ '"')
  let result := p.slice p.pos stop
  let p ← Parser.expect { p with pos := stop } '"'
  .ok (result, p)

/-- Parser::peek_word (parser.rs): the alphabetic word at the cursor
after whitespace, read on a clone of the parser. -/
def Parser.peek_word (p : Parser) : String :=
  let q := p.skip_whitespace
  q.slice q.pos (q.scan_stop (fun c => c.isAlpha))

/-- The character-by-character keyword consumption of consume_word; a
mismatch or end of input is a process abort, not an error value. -/
def consume_wordAux (word : String) : List Char → Parser → Except PErr Parser
  | [], p => .ok p
  | ec :: rest, p =>
      match p.advance with
      | (some c, p1) =>
          if c = ec then consume_wordAux word rest p1
          else
            let context_start := p1.pos - 20
            let context_end := min (p1.pos + 20) (p1.input.length)
            let context := p1.slice context_start context_end
            .error (.abort
              s!"Expected \x27{ec}\x27, found \x27{c}\x27 while consuming \x27{word}\x27. Context: ...{context}...")
      | (none, _) =>
          .error (.abort s!"Expected \x27{ec}\x27, found end of input while consuming \x27{word}\x27")

/-- Parser::consume_word (parser.rs). -/
def Parser.consume_word (p : Parser) (word : String) : Except PErr Parser :=
  consume_wordAux word (to_uppercase word).data p.skip_whitespace

/-- Parser::match_comparison_op (parser.rs). -/
def Parser.match_comparison_op (p : Parser) : Option BinOp × Parser :=
  let p := p.skip_whitespace
  match p.peek with
  | some '<' =>
      let p1 := { p with pos := p.pos + 1 }
      match p1.peek with
      | some '>' => (some .Ne, { p1 with pos := p1.pos + 1 })
      | some '=' => (some .Le, { p1 with pos := p1.pos + 1 })
      | _ => (some .Lt, p1)
  | some '>' =>
      let p1 := { p with pos := p.pos + 1 }
      match p1.peek with
      | some '=' => (some .Ge, { p1 with pos := p1.pos + 1 })
      | _ => (some .Gt, p1)
  | some '=' => (some .Eq, { p with pos := p.pos + 1 })
  | _ => (none, p)

/-- The keyword-boundary test of parse_statement: the character k
places after the cursor is absent, or neither ASCII alphabetic nor an
underscore. -/
def Parser.boundary_after (p : Parser) (k : ℕ) : Bool :=
  match p.input.get? (p.pos + k) with
  | none => true
  | some c => !c.isAlpha && c ≠ '_'

/-- The remaining.starts_with test of parse_statement and parse_if. -/
def Parser.starts_with_kw (p : Parser) (kw : String) : Bool :=
  sliceIs p.input p.pos kw

/-- is_function (parser.rs): the fixed builtin-function name set. -/
def is_function (name : String) : Bool :=
  ["INT", "RND", "CHR$", "ASC", "VAL", "STR$", "MID$", "LEN", "LEFT$", "RIGHT$"].any
    (fun f => f == name)

/-! The recursive descent.  The loops and recursions of the source are
driven by structural fuel so that every definition reduces inside the
kernel, and the fuel values are kept small: every loop consumes at
least one character per iteration, so each loop is entered with the
remaining input length as fuel; parse_expression consumes at least one
character before every nested re-entry (an opening parenthesis or a
callee name), so its fuel is also the remaining length; and the
statement level consumes the IF keyword before every nested statement
list.  The expression tiers receive the fueled expression re-entry
point as the argument exprF.  With these fuels the exhaustion branches
are unreachable from parse_program. -/

/-- The remaining input length plus one, the local fuel bound. -/
def Parser.rem_fuel (p : Parser) : ℕ := p.input.length + 1 - p.pos

/-- The argument loop of parse_primary. -/
def parse_args (exprF : Parser → Except PErr (Expr × Parser)) :
    ℕ → List Expr → Parser → Except PErr (List Expr × Parser)
  | 0, _, _ => .error (.err "parser fuel exhausted")
  | fuel + 1, acc, p => do
      let (e, p) ← exprF p
      let p := p.skip_whitespace
      if p.peek = some ',' then parse_args exprF fuel (acc ++ [e]) (p.advance).2
      else .ok (acc ++ [e], p)

/-- Parser::parse_primary (parser.rs): parenthesized expression, string
literal, number, or identifier followed by an optional argument list
that is a function call for builtin names and an array access
otherwise. -/
def parse_primary (exprF : Parser → Except PErr (Expr × Parser)) (p : Parser) :
    Except PErr (Expr × Parser) :=
  let p := p.skip_whitespace
  if p.peek = some '(' then do
    let (e, p) ← exprF (p.advance).2
    let p ← p.expect ')'
    .ok (e, p)
  else if p.peek = some '"' then do
    let (s, p) ← p.parse_string_literal
    .ok (.String s, p)
  else if (p.peek.map (fun c => c.isDigit || c = '.')).getD false then do
    let (q, p) ← p.parse_number
    .ok (.Number q, p)
  else do
    let (name, p) ← p.parse_identifier
    let p := p.skip_whitespace
    if p.peek = some '(' then do
      let p := (p.advance).2
      let (args, p) ←
        if p.peek = some ')' then pure (([] : List Expr), p)
        else parse_args exprF p.rem_fuel [] p
      let p ← p.expect ')'
      if is_function name then .ok (.FunctionCall name args, p)
      else .ok (.ArrayAccess name args, p)
    else .ok (.Variable name, p)

/-- Parser::parse_unary (parser.rs): minus and NOT. -/
def parse_unary (exprF : Parser → Except PErr (Expr × Parser)) :
    ℕ → Parser → Except PErr (Expr × Parser)
  | 0, _ => .error (.err "parser fuel exhausted")
  | fuel + 1, p =>
      let p := p.skip_whitespace
      if p.peek = some '-' then do
        let (e, p) ← parse_unary exprF fuel (p.advance).2
        .ok (.UnaryOp .Neg e, p)
      else if p.peek_word = "NOT" then do
        let p ← p.consume_word "NOT"
        let (e, p) ← parse_unary exprF fuel p
        .ok (.UnaryOp .Not e, p)
      else parse_primary exprF p

/-- Parser::parse_power (parser.rs): right associative. -/
def parse_power (exprF : Parser → Except PErr (Expr × Parser)) :
    ℕ → Parser → Except PErr (Expr × Parser)
  | 0, _ => .error (.err "parser fuel exhausted")
  | fuel + 1, p => do
      let (l, p) ← parse_unary exprF p.rem_fuel p
      let p := p.skip_whitespace
      if p.peek = some '^' then do
        let (r, p) ← parse_power exprF fuel (p.advance).2
        .ok (.BinaryOp l .Pow r, p)
      else .ok (l, p)

/-- Parser::parse_multiplication (parser.rs), with its chain loop. -/
def parse_multiplication_loop (exprF : Parser → Except PErr (Expr × Parser)) :
    ℕ → Expr → Parser → Except PErr (Expr × Parser)
  | 0, _, _ => .error (.err "parser fuel exhausted")
  | fuel + 1, left, p =>
      let p := p.skip_whitespace
      if p.peek = some '*' then do
        let (r, p) ← parse_power exprF p.rem_fuel (p.advance).2
        parse_multiplication_loop exprF fuel (.BinaryOp left .Mul r) p
      else if p.peek = some '/' then do
        let (r, p) ← parse_power exprF p.rem_fuel (p.advance).2
        parse_multiplication_loop exprF fuel (.BinaryOp left .Div r) p
      else .ok (left, p)

/-- Parser::parse_multiplication (parser.rs). -/
def parse_multiplication (exprF : Parser → Except PErr (Expr × Parser)) (p : Parser) :
    Except PErr (Expr × Parser) := do
  let (l, p) ← parse_power exprF p.rem_fuel p
  parse_multiplication_loop exprF p.rem_fuel l p

/-- The additive chain loop of parse_addition. -/
def parse_addition_loop (exprF : Parser → Except PErr (Expr × Parser)) :
    ℕ → Expr → Parser → Except PErr (Expr × Parser)
  | 0, _, _ => .error (.err "parser fuel exhausted")
  | fuel + 1, left, p =>
      let p := p.skip_whitespace
      if p.peek = some '+' then do
        let (r, p) ← parse_multiplication exprF (p.advance).2
        parse_addition_loop exprF fuel (.BinaryOp left .Add r) p
      else if p.peek = some '-' then do
        let (r, p) ← parse_multiplication exprF (p.advance).2
        parse_addition_loop exprF fuel (.BinaryOp left .Sub r) p
      else .ok (left, p)

/-- Parser::parse_addition (parser.rs). -/
def parse_addition (exprF : Parser → Except PErr (Expr × Parser)) (p : Parser) :
    Except PErr (Expr × Parser) := do
  let (l, p) ← parse_multiplication exprF p
  parse_addition_loop exprF p.rem_fuel l p

/-- Parser::parse_comparison (parser.rs): a single, non-chained
comparison application. -/
def parse_comparison (exprF : Parser → Except PErr (Expr × Parser)) (p : Parser) :
    Except PErr (Expr × Parser) := do
  let (l, p) ← parse_addition exprF p
  let p := p.skip_whitespace
  match p.match_comparison_op with
  | (some op, p) => do
      let (r, p) ← parse_addition exprF p
      .ok (.BinaryOp l op r, p)
  | (none, p) => .ok (l, p)

/-- The AND chain loop of parse_and. -/
def parse_and_loop (exprF : Parser → Except PErr (Expr × Parser)) :
    ℕ → Expr → Parser → Except PErr (Expr × Parser)
  | 0, _, _ => .error (.err "parser fuel exhausted")
  | fuel + 1, left, p =>
      if p.peek_word = "AND" then do
        let p ← p.consume_word "AND"
        let (r, p) ← parse_comparison exprF p
        parse_and_loop exprF fuel (.BinaryOp left .And r) p
      else .ok (left, p)

/-- Parser::parse_and (parser.rs). -/
def parse_and (exprF : Parser → Except PErr (Expr × Parser)) (p : Parser) :
    Except PErr (Expr × Parser) := do
  let (l, p) ← parse_comparison exprF p
  parse_and_loop exprF p.rem_fuel l p

/-- The OR chain loop of parse_or. -/
def parse_or_loop (exprF : Parser → Except PErr (Expr × Parser)) :
    ℕ → Expr → Parser → Except PErr (Expr × Parser)
  | 0, _, _ => .error (.err "parser fuel exhausted")
  | fuel + 1, left, p =>
      if p.peek_word = "OR" then do
        let p ← p.consume_word "OR"
        let (r, p) ← parse_and exprF p
        parse_or_loop exprF fuel (.BinaryOp left .Or r) p
      else .ok (left, p)

/-- Parser::parse_or (parser.rs). -/
def parse_or (exprF : Parser → Except PErr (Expr × Parser)) (p : Parser) :
    Except PErr (Expr × Parser) := do
  let (l, p) ← parse_and exprF p
  parse_or_loop exprF p.rem_fuel l p

/-- Parser::parse_expression (parser.rs): the top of the precedence
chain; the fuel bounds the nesting of parenthesized and argument-list
re-entries, each of which has consumed at least one character. -/
def parse_expression : ℕ → Parser → Except PErr (Expr × Parser)
  | 0, _ => .error (.err "parser fuel exhausted")
  | fuel + 1, p => parse_or (parse_expression fuel) p

/-- The expression entry point used by the statement parsers. -/
def parse_expr (p : Parser) : Except PErr (Expr × Parser) :=
  parse_expression p.rem_fuel p

/-- Parser::parse_print (parser.rs): the item loop. -/
def parse_print_loop : ℕ → List PrintItem → Bool → Parser → Except PErr (Statement × Parser)
  | 0, _, _, _ => .error (.err "parser fuel exhausted")
  | fuel + 1, items, trailing, p =>
      let p := p.skip_whitespace
      if p.is_at_end || p.peek = some ':' then
        .ok (.Print ⟨items, trailing⟩, p)
      else if p.peek = some ';' then
        parse_print_loop fuel items true (p.advance).2
      else if p.peek = some ',' then
        parse_print_loop fuel (items ++ [.Comma]) false (p.advance).2
      else if p.peek_word = "TAB" then do
        let p ← p.consume_word "TAB"
        let p := p.skip_whitespace
        let p ← p.expect '('
        let (e, p) ← parse_expr p
        let p ← p.expect ')'
        parse_print_loop fuel (items ++ [.Tab e]) false p
      else do
        let (e, p) ← parse_expr p
        parse_print_loop fuel (items ++ [.Expr e]) false p

/-- Parser::parse_print (parser.rs). -/
def parse_print (p : Parser) : Except PErr (Statement × Parser) := do
  let p ← p.consume_word "PRINT"
  parse_print_loop p.rem_fuel [] false p

/-- Parser::parse_input (parser.rs). -/
def parse_input (p : Parser) : Except PErr (Statement × Parser) := do
  let p ← p.consume_word "INPUT"
  let p := p.skip_whitespace
  if p.peek = some '"' then do
    let (s, p) ← p.parse_string_literal
    let p := p.skip_whitespace
    let p := if p.peek = some ';' then ((p.advance).2).skip_whitespace else p
    let (v, p) ← p.parse_identifier
    .ok (.Input ⟨some s, v⟩, p)
  else do
    let (v, p) ← p.parse_identifier
    .ok (.Input ⟨none, v⟩, p)

/-- Parser::parse_goto (parser.rs). -/
def parse_goto (p : Parser) : Except PErr (Statement × Parser) := do
  let p ← p.consume_word "GOTO"
  let (q, p) ← p.parse_number
  .ok (.Goto (f64_as_u32 q), p)

/-- Parser::parse_gosub (parser.rs). -/
def parse_gosub (p : Parser) : Except PErr (Statement × Parser) := do
  let p ← p.consume_word "GOSUB"
  let (q, p) ← p.parse_number
  .ok (.Gosub (f64_as_u32 q), p)

/-- Parser::parse_for (parser.rs): variable, equals, start expression,
TO via consume_word (an abort when missing), end expression, optional
STEP expression. -/
def parse_for (p : Parser) : Except PErr (Statement × Parser) := do
  let p ← p.consume_word "FOR"
  let (v, p) ← p.parse_identifier
  let p := p.skip_whitespace
  let p ← p.expect '='
  let (start, p) ← parse_expr p
  let p := p.skip_whitespace
  let p ← p.consume_word "TO"
  let (stop, p) ← parse_expr p
  let p := p.skip_whitespace
  if p.peek_word = "STEP" then do
    let p ← p.consume_word "STEP"
    let (st, p) ← parse_expr p
    .ok (.For ⟨v, start, stop, some st⟩, p)
  else
    .ok (.For ⟨v, start, stop, none⟩, p)

/-- Parser::parse_next (parser.rs): optional variable name. -/
def parse_next (p : Parser) : Except PErr (Statement × Parser) := do
  let p ← p.consume_word "NEXT"
  let p := p.skip_whitespace
  if p.is_at_end || p.peek = some ':' then .ok (.Next none, p)
  else do
    let (v, p) ← p.parse_identifier
    .ok (.Next (some v), p)

/-- The dimension loop of one parse_dim declaration. -/
def parse_dim_dims : ℕ → List Expr → Parser → Except PErr (List Expr × Parser)
  | 0, _, _ => .error (.err "parser fuel exhausted")
  | fuel + 1, acc, p => do
      let (e, p) ← parse_expr p
      let p := p.skip_whitespace
      if p.peek = some ',' then parse_dim_dims fuel (acc ++ [e]) (p.advance).2
      else .ok (acc ++ [e], p)

/-- The declaration loop of parse_dim. -/
def parse_dim_decls : ℕ → List DimDeclaration → Parser → Except PErr (Statement × Parser)
  | 0, _, _ => .error (.err "parser fuel exhausted")
  | fuel + 1, acc, p => do
      let p := p.skip_whitespace
      let (name, p) ← p.parse_identifier
      let p ← p.expect '('
      let (dims, p) ← parse_dim_dims p.rem_fuel [] p
      let p ← p.expect ')'
      let acc := acc ++ [⟨name, dims⟩]
      let p := p.skip_whitespace
      if p.peek = some ',' then parse_dim_decls fuel acc (p.advance).2
      else .ok (.Dim acc, p)

/-- Parser::parse_dim (parser.rs). -/
def parse_dim (p : Parser) : Except PErr (Statement × Parser) := do
  let p ← p.consume_word "DIM"
  parse_dim_decls p.rem_fuel [] p

/-- The value loop of parse_data. -/
def parse_data_loop : ℕ → List String → Parser → Except PErr (Statement × Parser)
  | 0, _, _ => .error (.err "parser fuel exhausted")
  | fuel + 1, acc, p =>
      let p := p.skip_whitespace
      let stop := p.scan_stop (fun c => c ≠ ',' && c ≠ ':')
      let acc := acc ++ [trimChars (p.slice p.pos stop)]
      let p := Parser.skip_whitespace { p with pos := stop }
      if p.peek = some ',' then parse_data_loop fuel acc (p.advance).2
      else .ok (.Data acc, p)

/-- Parser::parse_data (parser.rs): comma-separated raw trimmed text
fields read up to a comma, colon or line end. -/
def parse_data (p : Parser) : Except PErr (Statement × Parser) := do
  let p ← p.consume_word "DATA"
  parse_data_loop (p.rem_fuel + 1) [] p

/-- The variable loop of parse_read. -/
def parse_read_loop : ℕ → List String → Parser → Except PErr (Statement × Parser)
  | 0, _, _ => .error (.err "parser fuel exhausted")
  | fuel + 1, acc, p => do
      let p := p.skip_whitespace
      let (v, p) ← p.parse_identifier
      let acc := acc ++ [v]
      let p := p.skip_whitespace
      if p.peek = some ',' then parse_read_loop fuel acc (p.advance).2
      else .ok (.Read acc, p)

/-- Parser::parse_read (parser.rs). -/
def parse_read (p : Parser) : Except PErr (Statement × Parser) := do
  let p ← p.consume_word "READ"
  parse_read_loop p.rem_fuel [] p

/-- Parser::parse_poke (parser.rs). -/
def parse_poke (p : Parser) : Except PErr (Statement × Parser) := do
  let p ← p.consume_word "POKE"
  let (addr, p) ← parse_expr p
  let p := p.skip_whitespace
  let p ← p.expect ','
  let (v, p) ← parse_expr p
  .ok (.Poke addr v, p)

/-- Parser::parse_rem (parser.rs): the rest of the line verbatim. -/
def parse_rem (p : Parser) : Except PErr (Statement × Parser) := do
  let p ← p.consume_word "REM"
  let rest := p.slice p.pos p.input.length
  .ok (.Rem rest, { p with pos := p.input.length })

/-- The index loop of parse_let. -/
def parse_let_indices : ℕ → List Expr → Parser → Except PErr (List Expr × Parser)
  | 0, _, _ => .error (.err "parser fuel exhausted")
  | fuel + 1, acc, p => do
      let (e, p) ← parse_expr p
      let p := p.skip_whitespace
      if p.peek = some ',' then parse_let_indices fuel (acc ++ [e]) (p.advance).2
      else .ok (acc ++ [e], p)

/-- Parser::parse_let (parser.rs): optional LET keyword, identifier,
optional index list, equals, value expression. -/
def parse_let (p : Parser) : Except PErr (Statement × Parser) := do
  let p ← if p.peek_word = "LET" then p.consume_word "LET" else .ok p
  let (v, p) ← p.parse_identifier
  let p := p.skip_whitespace
  let (index, p) ←
    if p.peek = some '(' then do
      let q := (p.advance).2
      let (indices, q) ← parse_let_indices q.rem_fuel [] q
      let q ← q.expect ')'
      pure ((some indices : Option (List Expr)), q)
    else pure ((none : Option (List Expr)), p)
  let p := p.skip_whitespace
  let p ← p.expect '='
  let (value, p) ← parse_expr p
  .ok (.Let ⟨v, index, value⟩, p)

mutual

/-- Parser::parse_statement (parser.rs): keyword dispatch in source
order with the keyword-boundary test, defaulting to LET.  The fuel
bounds the nesting of inline IF branches, each of which has consumed
an IF keyword. -/
def parse_statement : ℕ → Parser → Except PErr (Statement × Parser)
  | 0, _ => .error (.err "parser fuel exhausted")
  | fuel + 1, p =>
      let p := p.skip_whitespace
      if p.starts_with_kw "RETURN" && p.boundary_after 6 then do
        let p ← p.consume_word "RETURN"
        .ok (.Return, p)
      else if p.starts_with_kw "PRINT" && p.boundary_after 5 then parse_print p
      else if p.starts_with_kw "INPUT" && p.boundary_after 5 then parse_input p
      else if p.starts_with_kw "GOSUB" && p.boundary_after 5 then parse_gosub p
      else if p.starts_with_kw "GOTO" && p.boundary_after 4 then parse_goto p
      else if p.starts_with_kw "FOR" && p.boundary_after 3 then parse_for p
      else if p.starts_with_kw "NEXT" && p.boundary_after 4 then parse_next p
      else if p.starts_with_kw "DATA" && p.boundary_after 4 then parse_data p
      else if p.starts_with_kw "READ" && p.boundary_after 4 then parse_read p
      else if p.starts_with_kw "POKE" && p.boundary_after 4 then parse_poke p
      else if p.starts_with_kw "DIM" && p.boundary_after 3 then parse_dim p
      else if p.starts_with_kw "END" && p.boundary_after 3 then do
        let p ← p.consume_word "END"
        .ok (.End, p)
      else if p.starts_with_kw "REM" && p.boundary_after 3 then parse_rem p
      else if p.starts_with_kw "IF" && p.boundary_after 2 then parse_if fuel p
      else parse_let p

/-- Parser::parse_if (parser.rs): condition, optional THEN, then a line
number or an inline statement list. -/
def parse_if : ℕ → Parser → Except PErr (Statement × Parser)
  | 0, _ => .error (.err "parser fuel exhausted")
  | fuel + 1, p => do
      let p ← p.consume_word "IF"
      let (condition, p) ← parse_expr p
      let p := p.skip_whitespace
      let p ←
        if p.starts_with_kw "THEN" then do
          let p ← p.consume_word "THEN"
          pure p.skip_whitespace
        else pure p
      if (p.peek.map (fun c => c.isDigit)).getD false then do
        let (q, p) ← p.parse_number
        .ok (.If condition [] (some (f64_as_u32 q)), p)
      else do
        let (branch, p) ← parse_if_branch fuel [] p
        .ok (.If condition branch none, p)

/-- The inline then-branch loop of parse_if. -/
def parse_if_branch : ℕ → List Statement → Parser → Except PErr (List Statement × Parser)
  | 0, _, _ => .error (.err "parser fuel exhausted")
  | fuel + 1, acc, p =>
      if p.is_at_end || p.peek = some ':' then .ok (acc, p)
      else do
        let (st, p) ← parse_statement fuel p
        let p := p.skip_whitespace
        if p.peek = some ':' then parse_if_branch fuel (acc ++ [st]) (p.advance).2
        else .ok (acc ++ [st], p)

end

/-- The statement loop of parse_line. -/
def parse_line_loop : ℕ → List Statement → Parser → Except PErr (List Statement × Parser)
  | 0, _, _ => .error (.err "parser fuel exhausted")
  | fuel + 1, acc, p =>
      let p := p.skip_whitespace
      if p.is_at_end then .ok (acc, p)
      else if p.peek = some ':' then parse_line_loop fuel acc (p.advance).2
      else do
        let (st, p) ← parse_statement p.rem_fuel p
        let p := p.skip_whitespace
        if p.peek = some ':' then parse_line_loop fuel (acc ++ [st]) (p.advance).2
        else .ok (acc ++ [st], p)

/-- Parser::parse_line (parser.rs): line number, then colon-separated
statements with empty statements skipped. -/
def parse_line (p : Parser) : Except PErr ((ℕ × List Statement) × Parser) := do
  let p := p.skip_whitespace
  let (q, p) ← p.parse_number
  let line_num := f64_as_u32 q
  let p := p.skip_whitespace
  let (statements, p) ← parse_line_loop p.rem_fuel [] p
  .ok ((line_num, statements), p)

/-- Parser::parse_program (parser.rs): split the source into lines,
trim, skip blanks, parse each line and insert it into the program map.
Rust lines() splits on newlines; the subsequent trim also removes any
carriage return. -/
def parse_program_lines : List String → Program → Except PErr Program
  | [], prog => .ok prog
  | line :: rest, prog =>
      let line := trimChars line
      if line.isEmpty then parse_program_lines rest prog
      else do
        let p := Parser.new line
        let ((line_num, statements), _) ← parse_line p
        parse_program_lines rest ⟨btreeInsert prog.lines line_num statements⟩

/-- Parser::parse_program (parser.rs), entry point. -/
def parse_program (source : String) : Except PErr Program :=
  parse_program_lines (splitLines source) Program.new

/-! ### Detokenizer (prg_loader.rs) -/

/-- TOKENS (prg_loader.rs): the token table for byte values from 128
upward, in source order. -/
def TOKENS : List String :=
  ["END", "FOR", "NEXT", "DATA", "INPUT#", "INPUT", "DIM", "READ",
   "LET", "GOTO", "RUN", "IF", "RESTORE", "GOSUB", "RETURN", "REM",
   "STOP", "ON", "WAIT", "LOAD", "SAVE", "VERIFY", "DEF", "POKE",
   "PRINT#", "PRINT", "CONT", "LIST", "CLR", "CMD", "SYS", "OPEN",
   "CLOSE", "GET", "NEW", "TAB(", "TO", "FN", "SPC(", "THEN",
   "NOT", "STEP", "+", "-", "*", "/", "^", "AND",
   "OR", ">", "=", "<", "SGN", "INT", "ABS", "USR",
   "FRE", "POS", "SQR", "RND", "LOG", "EXP", "COS", "SIN",
   "TAN", "ATN", "PEEK", "LEN", "STR$", "VAL", "ASC", "CHR$",
   "LEFT$", "RIGHT$", "MID$", "GO"]

/-- petscii_to_ascii (prg_loader.rs): printable ranges pass through,
everything else becomes a question mark. -/
def petscii_to_ascii (b : ℕ) : Char :=
  if 32 ≤ b ∧ b ≤ 95 then Char.ofNat b
  else if 97 ≤ b ∧ b ≤ 122 then Char.ofNat b
  else '?'

/-- The keyword subset given spacing in detokenize_program; the source
repeats this matches! list for the space-before and space-after
checks. -/
def spaced_keywords : List String :=
  ["IF", "FOR", "THEN", "TO", "STEP", "AND", "OR", "NOT",
   "GOTO", "GOSUB", "ON", "DIM", "READ", "INPUT", "LET",
   "PRINT", "GET", "NEXT", "DATA", "RETURN", "END"]

/-- Membership in the spaced keyword subset. -/
def needs_space (token : String) : Bool :=
  spaced_keywords.any (fun k => k == token)

/-- The ASCII-alphanumeric byte test of detokenize_program. -/
def is_alnum_byte (b : ℕ) : Bool :=
  (65 ≤ b && b ≤ 90) || (97 ≤ b && b ≤ 122) || (48 ≤ b && b ≤ 57)

/-- One uppercase hexadecimal digit. -/
def hexDigit (n : ℕ) : Char :=
  if n < 10 then Char.ofNat (48 + n) else Char.ofNat (55 + n)

/-- Two-digit uppercase hexadecimal rendering of a byte, as the 02X
format of the decode error message. -/
def hex2 (b : ℕ) : String :=
  String.mk [hexDigit (b / 16 % 16), hexDigit (b % 16)]

/-- The per-line byte loop of detokenize_program (prg_loader.rs): runs
until a zero byte or the end of input, toggling the in-string flag on
quotes, copying literal text through the PETSCII mapping while inside
a string or remark, decoding bytes of at least 128 through TOKENS with
the spacing heuristic, and failing hard on a token index outside the
table.  Returns the decoded text and the stop position. -/
def detok_line (bytes : List ℕ) (line_number : ℕ) :
    ℕ → ℕ → Bool → Bool → Bool → String → Except String (String × ℕ)
  | 0, pos, _, _, _, acc => .ok (acc, pos)
  | fuel + 1, pos, in_quotes, in_rem, last_alnum, acc =>
      match bytes.get? pos with
      | none => .ok (acc, pos)
      | some b =>
          if b = 0 then .ok (acc, pos)
          else
            let pos := pos + 1
            if b = 34 then
              detok_line bytes line_number fuel pos (!in_quotes) in_rem false (acc.push '"')
            else if in_quotes || in_rem then
              detok_line bytes line_number fuel pos in_quotes in_rem false
                (acc.push (petscii_to_ascii b))
            else if 128 ≤ b then
              match TOKENS.get? (b - 128) with
              | some token =>
                  let acc := if last_alnum && needs_space token then acc.push ' ' else acc
                  let acc := acc ++ token
                  let in_rem := if token = "REM" then true else in_rem
                  let space_after :=
                    match bytes.get? pos with
                    | some next_byte => is_alnum_byte next_byte && needs_space token
                    | none => false
                  let acc := if space_after then acc.push ' ' else acc
                  detok_line bytes line_number fuel pos in_quotes in_rem false acc
              | none =>
                  .error s!"Unknown token ${hex2 b} at position {pos - 1} (line {line_number})"
            else
              detok_line bytes line_number fuel pos in_quotes in_rem (is_alnum_byte b)
                (acc.push (petscii_to_ascii b))

/-- The record loop of detokenize_program (prg_loader.rs): link
pointer (0x0000 ends the program), little-endian line number, decoded
line text, null terminator skipped, newline appended. -/
def detok_program_loop (bytes : List ℕ) : ℕ → ℕ → String → Except String String
  | 0, _, acc => .ok acc
  | fuel + 1, pos, acc =>
      if pos < bytes.length then
        if bytes.length ≤ pos + 1 then .ok acc
        else
          let link_lo := bytes.getD pos 0
          let link_hi := bytes.getD (pos + 1) 0
          let pos := pos + 2
          if link_lo = 0 ∧ link_hi = 0 then .ok acc
          else if bytes.length ≤ pos + 1 then
            .error "Unexpected end of file while reading line number"
          else
            let line_lo := bytes.getD pos 0
            let line_hi := bytes.getD (pos + 1) 0
            let pos := pos + 2
            let line_number := line_lo + line_hi * 256
            let acc := acc ++ s!"{line_number} "
            do
              let (txt, pos) ←
                detok_line bytes line_number (bytes.length + 1 - pos) pos false false false ""
              let pos := if pos < bytes.length ∧ bytes.getD pos 0 = 0 then pos + 1 else pos
              detok_program_loop bytes fuel pos (acc ++ txt ++ "\n")
      else .ok acc

/-- detokenize_program (prg_loader.rs), entry point. -/
def detokenize_program (bytes : List ℕ) : Except String String :=
  detok_program_loop bytes (bytes.length + 1) 0 ""

example :
    detokenize_program
      [0x10, 0x08, 0x0A, 0x00, 153, 32, 34, 72, 69, 76, 76, 79, 34, 0, 0x00, 0x00] =
      .ok "10 PRINT \"HELLO\"\n" := rfl

/-! ### Interpreter (interpreter.rs)

Interpreter state is a record; the screen sink is the list of emitted
events; the thread-local random generator is a pre-drawn stream of
values held in the state; statement execution passes the state
explicitly and returns Except String, the runtime error channel of the
source. -/

/-- One observable call on the display sink (screen.rs interface). -/
inductive ScreenEvent where
  | print : String → ScreenEvent
  | println : String → ScreenEvent
  | tab_to : ℕ → ScreenEvent
  | set_border_color : ℕ → ScreenEvent
  | set_background_color : ℕ → ScreenEvent
deriving DecidableEq

/-- ForLoop (interpreter.rs): one FOR frame.  The end_value and step
fields are f64 in the source, modelled by ℚ; variable_ models the
source field named variable. -/
structure ForLoop where
  variable_ : String
  end_value : ℚ
  step : ℚ
  line_num : ℕ
  statement_idx : ℕ
deriving DecidableEq

/-- Interpreter (interpreter.rs): the full runtime state.  Stacks keep
their top at the head; maps are association lists; rng is the stream of
values the thread-local generator would produce; variables_ models the
source field named variables, which is a reserved word here. -/
structure Interpreter where
  program : Program
  variables_ : List (String × Value)
  arrays : List (String × List Value)
  array_dimensions : List (String × List ℕ)
  gosub_stack : List (ℕ × ℕ)
  for_stack : List ForLoop
  data_values : List String
  data_pointer : ℕ
  current_line : Option ℕ
  statement_idx : ℕ
  screen : List ScreenEvent
  input_buffer : String
  waiting_for_input : Bool
  input_variable : Option String
  rng : List ℚ
  ended : Bool

/-- Interpreter::new (interpreter.rs), with the random stream taking
the place of the thread-local generator. -/
def Interpreter.new (rng : List ℚ) : Interpreter :=
  { program := Program.new, variables_ := [], arrays := [], array_dimensions := [],
    gosub_stack := [], for_stack := [], data_values := [], data_pointer := 0,
    current_line := none, statement_idx := 0, screen := [], input_buffer := "",
    waiting_for_input := false, input_variable := none, rng := rng, ended := false }

/-- Screen::print, recorded as an event. -/
def Interpreter.screen_print (s : Interpreter) (t : String) : Interpreter :=
  { s with screen := s.screen ++ [.print t] }

/-- Screen::println, recorded as an event. -/
def Interpreter.screen_println (s : Interpreter) (t : String) : Interpreter :=
  { s with screen := s.screen ++ [.println t] }

/-- Screen::tab_to, recorded as an event. -/
def Interpreter.screen_tab_to (s : Interpreter) (col : ℕ) : Interpreter :=
  { s with screen := s.screen ++ [.tab_to col] }

/-- Screen::set_border_color, recorded as an event. -/
def Interpreter.screen_set_border_color (s : Interpreter) (c : ℕ) : Interpreter :=
  { s with screen := s.screen ++ [.set_border_color c] }

/-- Screen::set_background_color, recorded as an event. -/
def Interpreter.screen_set_background_color (s : Interpreter) (c : ℕ) : Interpreter :=
  { s with screen := s.screen ++ [.set_background_color c] }

/-- The as-usize cast applied to as_int results: i64 to usize wraps
modulo 2 to the 64. -/
def usizeOfInt (i : ℤ) : ℕ := (i % (2 : ℤ) ^ 64).toNat

/-- The as-u32 cast applied to as_int results in exec_poke. -/
def u32OfInt (i : ℤ) : ℕ := (i % (2 : ℤ) ^ 32).toNat

/-- The as-u8 cast applied to as_int results. -/
def u8OfInt (i : ℤ) : ℕ := (i % (256 : ℤ)).toNat

/-- The ends_with dollar test used to choose between string and number
coercion by variable name. -/
def ends_dollar (name : String) : Bool := name.data.getLast? == some '$'

/-- Rust str::parse of f64 on the buffers arising here: an optional
sign followed by digits with at most one point, kept exact in ℚ
(exponent and special-value syntax is not modelled; no claim involves
it). -/
def parse_f64 (t : String) : Option ℚ :=
  match t.data with
  | '-' :: rest => (parse_f64_plain rest).map Neg.neg
  | '+' :: rest => parse_f64_plain rest
  | cs => parse_f64_plain cs

/-- Interpreter::handle_input_char (interpreter.rs). -/
def Interpreter.handle_input_char (s : Interpreter) (c : Char) : Interpreter :=
  let s := { s with input_buffer := s.input_buffer.push c }
  s.screen_print (String.mk [c])

/-- Interpreter::handle_input_backspace (interpreter.rs). -/
def Interpreter.handle_input_backspace (s : Interpreter) : Interpreter :=
  if !s.input_buffer.isEmpty then
    { s with input_buffer := String.mk s.input_buffer.data.dropLast }
  else s

/-- Interpreter::handle_input_enter (interpreter.rs): when a target
variable is set, commit the buffer to it (string or best-effort number
by name suffix), clear the pending-input state and print a newline. -/
def Interpreter.handle_input_enter (s : Interpreter) : Interpreter :=
  match s.input_variable with
  | none => s
  | some var_name =>
      let value :=
        if ends_dollar var_name then Value.str s.input_buffer
        else Value.num ((parse_f64 s.input_buffer).getD 0)
      let s :=
        { s with variables_ := insertA s.variables_ var_name value,
                 input_buffer := "", waiting_for_input := false, input_variable := none }
      s.screen_println ""

/-- The powf of eval_binop, modelled for integral exponents by the
integer power of ℚ (no claim involves a non-integral exponent). -/
def powf (a b : ℚ) : ℚ := if b.den = 1 then a ^ b.num else 0

/-- Interpreter::eval_binop (interpreter.rs).  Division is the total
division of ℚ, which yields zero at a zero divisor where IEEE yields an
infinity; no claim involves that case. -/
def eval_binop (left : Value) (op : BinOp) (right : Value) : Except String Value :=
  match op with
  | .Add =>
      match left, right with
      | .num a, .num b => .ok (.num (a + b))
      | .str a, .str b => .ok (.str (a ++ b))
      | _, _ => .error "Type mismatch in addition"
  | .Sub => do
      let a ← left.as_number
      let b ← right.as_number
      .ok (.num (a - b))
  | .Mul => do
      let a ← left.as_number
      let b ← right.as_number
      .ok (.num (a * b))
  | .Div => do
      let a ← left.as_number
      let b ← right.as_number
      .ok (.num (a / b))
  | .Pow => do
      let a ← left.as_number
      let b ← right.as_number
      .ok (.num (powf a b))
  | .Eq => .ok (.num (if left = right then -1 else 0))
  | .Ne => .ok (.num (if left ≠ right then -1 else 0))
  | .Lt => do
      let a ← left.as_number
      let b ← right.as_number
      .ok (.num (if a < b then -1 else 0))
  | .Le => do
      let a ← left.as_number
      let b ← right.as_number
      .ok (.num (if a ≤ b then -1 else 0))
  | .Gt => do
      let a ← left.as_number
      let b ← right.as_number
      .ok (.num (if b < a then -1 else 0))
  | .Ge => do
      let a ← left.as_number
      let b ← right.as_number
      .ok (.num (if b ≤ a then -1 else 0))
  | .And => do
      let a ← left.as_int
      let b ← right.as_int
      .ok (.num ((Int.land a b : ℤ) : ℚ))
  | .Or => do
      let a ← left.as_int
      let b ← right.as_int
      .ok (.num ((Int.lor a b : ℤ) : ℚ))

/-- Interpreter::eval_unop (interpreter.rs). -/
def eval_unop (op : UnOp) (val : Value) : Except String Value :=
  match op with
  | .Neg => do
      let n ← val.as_number
      .ok (.num (-n))
  | .Not => .ok (.num (if val.is_truthy then 0 else -1))

/-- The product of the dimension sizes after the current one, the
multiplier chain of calculate_flat_index. -/
def dims_product (ds : List ℕ) : ℕ := ds.foldl (fun a b => a * b) 1

/-- The bound-checking flattening loop of calculate_flat_index
(interpreter.rs): the source walks the dimensions from the last one
upward with a running multiplier; the recursion computes the same sum
and reports the same out-of-bounds error on any violating index. -/
def calc_flat_go : List ℕ → List ℕ → Except String ℕ
  | [], _ => .ok 0
  | _ :: _, [] => .ok 0
  | i :: is, d :: ds =>
      if d ≤ i then .error "Array index out of bounds"
      else do
        let f ← calc_flat_go is ds
        .ok (i * dims_product ds + f)

/-- Interpreter::calculate_flat_index (interpreter.rs). -/
def calculate_flat_index (indices dims : List ℕ) : Except String ℕ :=
  if indices.length ≠ dims.length then .error "Array dimension mismatch"
  else calc_flat_go indices dims

mutual

/-- Interpreter::eval_expr (interpreter.rs).  For a scalar variable the
or_else closure of the source always supplies a default value, so the
unknown-variable error of the trailing ok_or_else can never fire. -/
def eval_expr : Expr → Interpreter → Except String (Value × Interpreter)
  | .Number n, s => .ok (.num n, s)
  | .String t, s => .ok (.str t, s)
  | .Variable name, s =>
      match getA s.variables_ name with
      | some v => .ok (v, s)
      | none => .ok ((if ends_dollar name then .str "" else .num 0), s)
  | .ArrayAccess name indices, s => do
      let (ivs, s) ← eval_index_list indices s
      match getA s.arrays name with
      | none => .error s!"Array {name} not dimensioned"
      | some arr =>
          match getA s.array_dimensions name with
          | none => .error s!"Array {name} not dimensioned"
          | some dims => do
              let flat ← calculate_flat_index ivs dims
              match arr.get? flat with
              | some v => .ok (v, s)
              | none => .error "Array index out of bounds"
  | .BinaryOp l op r, s => do
      let (lv, s) ← eval_expr l s
      let (rv, s) ← eval_expr r s
      let v ← eval_binop lv op rv
      .ok (v, s)
  | .UnaryOp op e, s => do
      let (v, s) ← eval_expr e s
      let v2 ← eval_unop op v
      .ok (v2, s)
  | .FunctionCall name args, s => eval_function name args s

/-- The as-usize index evaluation loop shared by array reads and array
assignment (interpreter.rs). -/
def eval_index_list : List Expr → Interpreter → Except String (List ℕ × Interpreter)
  | [], s => .ok ([], s)
  | e :: es, s => do
      let (v, s) ← eval_expr e s
      let i ← v.as_int
      let (rest, s) ← eval_index_list es s
      .ok (usizeOfInt i :: rest, s)

/-- Interpreter::eval_function (interpreter.rs): the fixed builtin set
with arity checks.  The STR$ rendering of the source is the default
f64 Display; it is modelled by the integral or trimmed fixed-point
rendering, which agrees on the values arising here (no claim involves
STR$). -/
def eval_function : String → List Expr → Interpreter → Except String (Value × Interpreter)
  | "INT", args, s =>
      match args with
      | [a] => do
          let (v, s) ← eval_expr a s
          let n ← v.as_number
          .ok (.num (⌊n⌋ : ℤ), s)
      | _ => .error "INT requires 1 argument"
  | "RND", _, s =>
      match s.rng with
      | [] => .ok (.num 0, s)
      | r :: rest => .ok (.num r, { s with rng := rest })
  | "CHR$", args, s =>
      match args with
      | [a] => do
          let (v, s) ← eval_expr a s
          let i ← v.as_int
          .ok (.str (String.mk [Char.ofNat (u8OfInt i)]), s)
      | _ => .error "CHR$ requires 1 argument"
  | "ASC", args, s =>
      match args with
      | [a] => do
          let (v, s) ← eval_expr a s
          let t ← v.as_string
          let code :=
            match t.data with
            | [] => 0
            | c :: _ => c.toNat % 256
          .ok (.num code, s)
      | _ => .error "ASC requires 1 argument"
  | "VAL", args, s =>
      match args with
      | [a] => do
          let (v, s) ← eval_expr a s
          let t ← v.as_string
          .ok (.num ((parse_f64 (trimChars t)).getD 0), s)
      | _ => .error "VAL requires 1 argument"
  | "STR$", args, s =>
      match args with
      | [a] => do
          let (v, s) ← eval_expr a s
          let n ← v.as_number
          let rendered :=
            if n.den = 1 then intToString n.num
            else trim_end_matches (trim_end_matches (format_fixed9 n) '0') '.'
          .ok (.str (" " ++ rendered), s)
      | _ => .error "STR$ requires 1 argument"
  | "MID$", args, s =>
      match args with
      | [a, b] => do
          let (v, s) ← eval_expr a s
          let t ← v.as_string
          let (bv, s) ← eval_expr b s
          let bi ← bv.as_int
          let start := (max (bi - 1) 0).toNat
          .ok (.str (String.mk (t.data.drop start)), s)
      | [a, b, c] => do
          let (v, s) ← eval_expr a s
          let t ← v.as_string
          let (bv, s) ← eval_expr b s
          let bi ← bv.as_int
          let start := (max (bi - 1) 0).toNat
          let (cv, s) ← eval_expr c s
          let ci ← cv.as_int
          let length := usizeOfInt ci
          .ok (.str (String.mk ((t.data.drop start).take length)), s)
      | _ => .error "MID$ requires 2 or 3 arguments"
  | "LEN", args, s =>
      match args with
      | [a] => do
          let (v, s) ← eval_expr a s
          let t ← v.as_string
          .ok (.num t.data.length, s)
      | _ => .error "LEN requires 1 argument"
  | "LEFT$", args, s =>
      match args with
      | [a, b] => do
          let (v, s) ← eval_expr a s
          let t ← v.as_string
          let (bv, s) ← eval_expr b s
          let bi ← bv.as_int
          .ok (.str (String.mk (t.data.take (usizeOfInt bi))), s)
      | _ => .error "LEFT$ requires 2 arguments"
  | "RIGHT$", args, s =>
      match args with
      | [a, b] => do
          let (v, s) ← eval_expr a s
          let t ← v.as_string
          let (bv, s) ← eval_expr b s
          let bi ← bv.as_int
          let length := usizeOfInt bi
          let skip := t.data.length - length
          .ok (.str (String.mk (t.data.drop skip)), s)
      | _ => .error "RIGHT$ requires 2 arguments"
  | name, _, _ => .error s!"Unknown function: {name}"

end

/-- Interpreter::exec_print (interpreter.rs): the item loop with its
column counter; numbers get a trailing space, TAB and commas move the
column, a missing trailing semicolon ends the line. -/
def exec_print_items : List PrintItem → ℕ → Interpreter → Except String Interpreter
  | [], _, s => .ok s
  | item :: rest, column, s =>
      match item with
      | .Expr e => do
          let (value, s) ← eval_expr e s
          let text := value.to_display_string
          let s := s.screen_print text
          match value with
          | .num _ => exec_print_items rest (column + text.length + 1) (s.screen_print " ")
          | .str _ => exec_print_items rest (column + text.length) s
      | .Tab e => do
          let (v, s) ← eval_expr e s
          let i ← v.as_int
          let col := usizeOfInt i
          exec_print_items rest col (s.screen_tab_to col)
      | .Comma =>
          let next_zone := (column / 10 + 1) * 10
          exec_print_items rest next_zone (s.screen_tab_to next_zone)
      | .Spc e => do
          let (v, s) ← eval_expr e s
          let i ← v.as_int
          let count := usizeOfInt i
          let s := { s with screen := s.screen ++ List.replicate count (.print " ") }
          exec_print_items rest (column + count) s

/-- Interpreter::exec_print (interpreter.rs). -/
def exec_print (stmt : PrintStatement) (s : Interpreter) : Except String Interpreter := do
  let s ← exec_print_items stmt.items 0 s
  if !stmt.trailing_semicolon then .ok (s.screen_println "") else .ok s

/-- Interpreter::exec_input (interpreter.rs): print the prompt or the
default, set the pending-input state, and decrement the statement index
(the index was just incremented by step, so it cannot underflow when
reached from there). -/
def exec_input (stmt : InputStatement) (s : Interpreter) : Except String Interpreter :=
  if s.waiting_for_input then .ok s
  else
    let s :=
      match stmt.prompt with
      | some prompt => s.screen_print prompt
      | none => s.screen_print "? "
    .ok { s with waiting_for_input := true, input_variable := some stmt.variable_,
                 statement_idx := s.statement_idx - 1 }

/-- Interpreter::exec_let (interpreter.rs): evaluate the value first;
a simple name overwrites the scalar map, an indexed name requires a
prior DIM and an in-range flat index. -/
def exec_let (stmt : LetStatement) (s : Interpreter) : Except String Interpreter := do
  let (value, s) ← eval_expr stmt.value s
  match stmt.index with
  | some indices => do
      let (ivs, s) ← eval_index_list indices s
      match getA s.array_dimensions stmt.variable_ with
      | none => .error s!"Array {stmt.variable_} not dimensioned"
      | some dims => do
          let flat ← calculate_flat_index ivs dims
          match getA s.arrays stmt.variable_ with
          | none => .error s!"Array {stmt.variable_} not dimensioned"
          | some arr =>
              if arr.length ≤ flat then .error "Array index out of bounds"
              else .ok { s with arrays := insertA s.arrays stmt.variable_ (arr.set flat value) }
  | none => .ok { s with variables_ := insertA s.variables_ stmt.variable_ value }

/-- Interpreter::exec_goto (interpreter.rs). -/
def exec_goto (line : ℕ) (s : Interpreter) : Except String Interpreter :=
  .ok { s with current_line := some line, statement_idx := 0 }

/-- Interpreter::exec_gosub (interpreter.rs): the source unwraps the
current line, which is always set when execution reaches a statement;
the none case models that unreachable unwrap. -/
def exec_gosub (line : ℕ) (s : Interpreter) : Except String Interpreter :=
  match s.current_line with
  | some cur => exec_goto line { s with gosub_stack := (cur, s.statement_idx) :: s.gosub_stack }
  | none => .error "GOSUB outside of a line"

/-- Interpreter::exec_return (interpreter.rs). -/
def exec_return (s : Interpreter) : Except String Interpreter :=
  match s.gosub_stack with
  | [] => .error "RETURN without GOSUB"
  | (line, idx) :: rest =>
      .ok { s with current_line := some line, statement_idx := idx, gosub_stack := rest }

/-- Interpreter::exec_for (interpreter.rs): evaluate start, end and
optional step (default one), assign the loop variable, push a frame
resuming at the statement after the FOR. -/
def exec_for (stmt : ForStatement) (s : Interpreter) : Except String Interpreter := do
  let (sv, s) ← eval_expr stmt.start s
  let start ← sv.as_number
  let (ev, s) ← eval_expr stmt.end_ s
  let end_value ← ev.as_number
  let (step, s) ←
    match stmt.step with
    | some e => do
        let (v, s) ← eval_expr e s
        let st ← v.as_number
        pure (st, s)
    | none => pure ((1 : ℚ), s)
  let s := { s with variables_ := insertA s.variables_ stmt.variable_ (.num start) }
  match s.current_line with
  | some cur =>
      .ok { s with for_stack :=
        ⟨stmt.variable_, end_value, step, cur, s.statement_idx⟩ :: s.for_stack }
  | none => .error "FOR outside of a line"

/-- Interpreter::exec_next (interpreter.rs): acts on the innermost
frame, ignoring any supplied variable name; the advanced value is
stored and the jump taken only when the loop continues, and a positive
step compares against the end value from below while any other step
(zero included) compares from above. -/
def exec_next (_var : Option String) (s : Interpreter) : Except String Interpreter :=
  match s.for_stack with
  | [] => .error "NEXT without FOR"
  | fl :: rest =>
      match getA s.variables_ fl.variable_ with
      | none => .error s!"Loop variable {fl.variable_} not found"
      | some v => do
          let current_value ← v.as_number
          let new_value := current_value + fl.step
          let should_continue :=
            if 0 < fl.step then new_value ≤ fl.end_value else fl.end_value ≤ new_value
          if should_continue then
            .ok { s with variables_ := insertA s.variables_ fl.variable_ (.num new_value),
                         current_line := some fl.line_num, statement_idx := fl.statement_idx }
          else .ok { s with for_stack := rest }

/-- The per-declaration dimension-size evaluation of exec_dim: each
evaluated bound is cast to usize and incremented, because the declared
bound is inclusive. -/
def exec_dim_sizes : List Expr → Interpreter → Except String (List ℕ × Interpreter)
  | [], s => .ok ([], s)
  | e :: es, s => do
      let (v, s) ← eval_expr e s
      let i ← v.as_int
      let size := usizeOfInt i + 1
      let (rest, s) ← exec_dim_sizes es s
      .ok (size :: rest, s)

/-- Interpreter::exec_dim (interpreter.rs): per declaration, the sizes
are one more than the evaluated bounds, the storage is their product
filled with the default by name suffix, and both maps are overwritten. -/
def exec_dim : List DimDeclaration → Interpreter → Except String Interpreter
  | [], s => .ok s
  | decl :: rest, s => do
      let (dims, s) ← exec_dim_sizes decl.dimensions s
      let total_size := dims_product dims
      let default_value := if ends_dollar decl.name then Value.str "" else Value.num 0
      let s :=
        { s with arrays := insertA s.arrays decl.name (List.replicate total_size default_value),
                 array_dimensions := insertA s.array_dimensions decl.name dims }
      exec_dim rest s

/-- Interpreter::exec_read (interpreter.rs): consume the shared DATA
pool sequentially, coercing by destination-name suffix; an exhausted
pool is fatal. -/
def exec_read : List String → Interpreter → Except String Interpreter
  | [], s => .ok s
  | var :: rest, s =>
      if s.data_values.length ≤ s.data_pointer then .error "OUT OF DATA"
      else
        let data_str := s.data_values.getD s.data_pointer ""
        let value :=
          if ends_dollar var then Value.str data_str
          else Value.num ((parse_f64 data_str).getD 0)
        exec_read rest
          { s with data_pointer := s.data_pointer + 1,
                   variables_ := insertA s.variables_ var value }

/-- Interpreter::exec_poke (interpreter.rs): only the border and
background color registers have observable effects; 650, 1690, 53272
and every other address are ignored. -/
def exec_poke (addr_expr val_expr : Expr) (s : Interpreter) : Except String Interpreter := do
  let (av, s) ← eval_expr addr_expr s
  let ai ← av.as_int
  let addr := u32OfInt ai
  let (vv, s) ← eval_expr val_expr s
  let vi ← vv.as_int
  let value := u8OfInt vi
  if addr = 53280 then .ok (s.screen_set_border_color value)
  else if addr = 53281 then .ok (s.screen_set_background_color value)
  else .ok s

/-- Interpreter::advance_to_next_line (interpreter.rs): move to the
first declared line after the current one (none ends the program) and
reset the statement index. -/
def advance_to_next_line (s : Interpreter) : Interpreter :=
  match s.current_line with
  | none => s
  | some current =>
      { s with current_line := s.program.next_key_after current, statement_idx := 0 }

mutual

/-- Interpreter::execute_statement (interpreter.rs).  The body of the
source method exec_if is inlined into the If arm so that the mutual
recursion with the then-branch list stays structural: on a truthy
condition, jump to the then-line when present, otherwise execute the
inline branch. -/
def execute_statement : Statement → Interpreter → Except String Interpreter
  | .Print stmt, s => exec_print stmt s
  | .Input stmt, s => exec_input stmt s
  | .Let stmt, s => exec_let stmt s
  | .If condition then_branch then_line, s => do
      let (cv, s) ← eval_expr condition s
      if cv.is_truthy then
        match then_line with
        | some line => exec_goto line s
        | none => exec_statements then_branch s
      else .ok s
  | .Goto line, s => exec_goto line s
  | .Gosub line, s => exec_gosub line s
  | .Return, s => exec_return s
  | .For stmt, s => exec_for stmt s
  | .Next var, s => exec_next var s
  | .Dim decls, s => exec_dim decls s
  | .Data _, s => .ok s
  | .Read vars, s => exec_read vars s
  | .Poke a v, s => exec_poke a v s
  | .End, s => .ok { s with ended := true }
  | .Rem _, s => .ok s

/-- The sequential execution of an inline then-branch (the for loop of
the source exec_if). -/
def exec_statements : List Statement → Interpreter → Except String Interpreter
  | [], s => .ok s
  | st :: rest, s => do
      let s ← execute_statement st s
      exec_statements rest s

end

/-- Interpreter::step (interpreter.rs): not continuing when ended or
without a current line; a missing current line in the program map is an
error; an exhausted statement list advances to the next declared line;
otherwise the statement at the current index runs with the index
already incremented, and its error is the step error. -/
def step (s : Interpreter) : Except String (Bool × Interpreter) :=
  if s.ended then .ok (false, s)
  else
    match s.current_line with
    | none => .ok (false, s)
    | some current_line =>
        match s.program.get current_line with
        | none => .error s!"Line {current_line} not found"
        | some statements =>
            if h : s.statement_idx < statements.length then
              match execute_statement (statements.get ⟨s.statement_idx, h⟩)
                  { s with statement_idx := s.statement_idx + 1 } with
              | .ok s2 => .ok (true, s2)
              | .error e => .error e
            else .ok (true, advance_to_next_line s)

/-- The DATA collection of load_program: all Data literals across the
program in ascending line and statement order. -/
def collect_data (lines : List (ℕ × List Statement)) : List String :=
  lines.foldl
    (fun acc e =>
      e.2.foldl
        (fun a st =>
          match st with
          | .Data values => a ++ values
          | _ => a)
        acc)
    []

/-- Interpreter::load_program (interpreter.rs): parse, collect the DATA
pool, start at the smallest declared line.  Parse failures surface
through the error channel; a consume_word abort is the abort outcome. -/
def load_program (s : Interpreter) (source : String) : Except PErr Interpreter :=
  match parse_program source with
  | .error e => .error e
  | .ok program =>
      let s := { s with program := program }
      let s := { s with data_values := s.data_values ++ collect_data program.lines }
      let s :=
        match s.program.first_key with
        | some first_line => { s with current_line := some first_line }
        | none => s
      .ok s

/-! ### Lemmas on digits and end-trimming, for the display claims -/

theorem dropWhile_append_all {α : Type} (p : α → Bool) (l₁ l₂ : List α)
    (h : ∀ x ∈ l₁, p x = true) :
    (l₁ ++ l₂).dropWhile p = l₂.dropWhile p := by
  induction l₁ with
  | nil => simp
  | cons a l ih =>
      simp only [List.cons_append, List.dropWhile_cons_of_pos (h a (by simp))]
      exact ih (fun x hx => h x (by simp [hx]))

theorem dropWhile_append_stop {α : Type} (p : α → Bool) (l₁ l₂ : List α)
    (h : l₁.dropWhile p ≠ []) :
    (l₁ ++ l₂).dropWhile p = l₁.dropWhile p ++ l₂ := by
  induction l₁ with
  | nil => simp at h
  | cons a l ih =>
      by_cases hp : p a = true
      · simp only [List.cons_append, List.dropWhile_cons_of_pos hp] at h ⊢
        exact ih h
      · simp only [List.cons_append,
          List.dropWhile_cons_of_neg (by simpa using hp)]

theorem mem_of_mem_dropWhile {α : Type} (p : α → Bool) (l : List α) (x : α)
    (h : x ∈ l.dropWhile p) : x ∈ l := by
  induction l with
  | nil => simpa using h
  | cons a t ih =>
      by_cases hp : p a = true
      · simp only [List.dropWhile_cons_of_pos hp] at h
        exact List.mem_cons_of_mem a (ih h)
      · simpa only [List.dropWhile_cons_of_neg (by simpa using hp)] using h

theorem natDigitsAux_spec (fuel : ℕ) :
    ∀ n, n < fuel →
      natDigitsAux fuel n ≠ [] ∧
      ∀ c ∈ natDigitsAux fuel n, ∃ d, d < 10 ∧ c = Char.ofNat (48 + d) := by
  induction fuel with
  | zero => intro n h; omega
  | succ fuel ih =>
      intro n _
      by_cases h10 : n < 10
      · refine ⟨by simp [natDigitsAux, h10], ?_⟩
        intro c hc
        simp only [natDigitsAux, if_pos h10, List.mem_singleton] at hc
        exact ⟨n, h10, hc⟩
      · have hdiv : n / 10 < fuel := by
          have h1 : n / 10 < n := Nat.div_lt_self (by omega) (by omega)
          omega
        obtain ⟨hne, hmem⟩ := ih (n / 10) hdiv
        refine ⟨?_, ?_⟩
        · simp [natDigitsAux, h10]
        · intro c hc
          simp only [natDigitsAux, if_neg h10, List.mem_append, List.mem_singleton] at hc
          rcases hc with hc | hc
          · exact hmem c hc
          · exact ⟨n % 10, Nat.mod_lt _ (by omega), hc⟩

theorem natToString_ne_nil (n : ℕ) : (natToString n).data ≠ [] :=
  (natDigitsAux_spec (n + 1) n (Nat.lt_succ_self n)).1

theorem natToString_digit (n : ℕ) :
    ∀ c ∈ (natToString n).data, ∃ d, d < 10 ∧ c = Char.ofNat (48 + d) :=
  (natDigitsAux_spec (n + 1) n (Nat.lt_succ_self n)).2

theorem digit_ne_dot (c : Char) (h : ∃ d, d < 10 ∧ c = Char.ofNat (48 + d)) : c ≠ '.' := by
  obtain ⟨d, hd, rfl⟩ := h
  interval_cases d <;> decide

theorem digit_ne_space (c : Char) (h : ∃ d, d < 10 ∧ c = Char.ofNat (48 + d)) : c ≠ ' ' := by
  obtain ⟨d, hd, rfl⟩ := h
  interval_cases d <;> decide

/-- End-trimming zeros then points over a list with a single point and
an all-zero fractional part leaves exactly the prefix. -/
theorem rstrip_all_zero (pre frac : List Char) (hpre : pre ≠ [])
    (hfrac : ∀ c ∈ frac, c = '0')
    (hlast : ∀ c, pre.getLast? = some c → c ≠ '.') :
    ((((pre ++ '.' :: frac).reverse.dropWhile (fun x => x == '0')).dropWhile
        (fun x => x == '.')).reverse) = pre := by
  have hrev : (pre ++ '.' :: frac).reverse = frac.reverse ++ '.' :: pre.reverse := by
    simp
  rw [hrev, dropWhile_append_all _ _ _ (by
    intro x hx
    have := hfrac x (List.mem_reverse.mp hx)
    simp [this])]
  rw [List.dropWhile_cons_of_neg (by decide)]
  rw [List.dropWhile_cons_of_pos (by decide)]
  obtain ⟨c, rest, hcr⟩ : ∃ c rest, pre.reverse = c :: rest := by
    rcases h : pre.reverse with _ | ⟨c, rest⟩
    · exact absurd (by simpa using congrArg List.reverse h) hpre
    · exact ⟨c, rest, rfl⟩
  have hc : pre.getLast? = some c := by
    rw [← List.head?_reverse, hcr]; rfl
  rw [hcr, List.dropWhile_cons_of_neg (by simpa using hlast c hc)]
  simpa using congrArg List.reverse hcr.symm

/-- End-trimming zeros then points preserves the head of the prefix. -/
theorem rstrip_head (pre frac : List Char) (hpre : pre ≠ [])
    (hfrac : ∀ c ∈ frac, c ≠ '.')
    (hlast : ∀ c, pre.getLast? = some c → c ≠ '.') :
    ((((pre ++ '.' :: frac).reverse.dropWhile (fun x => x == '0')).dropWhile
        (fun x => x == '.')).reverse).head? = pre.head? := by
  by_cases hz : frac.reverse.dropWhile (fun x => x == '0') = []
  · have hall : ∀ c ∈ frac, c = '0' := by
      intro c hc
      have := (List.dropWhile_eq_nil_iff).mp hz c (List.mem_reverse.mpr hc)
      simpa using this
    rw [rstrip_all_zero pre frac hpre hall hlast]
  · have hrev : (pre ++ '.' :: frac).reverse = frac.reverse ++ '.' :: pre.reverse := by
      simp
    rw [hrev, dropWhile_append_stop _ _ _ hz]
    obtain ⟨c, rest, hcr⟩ : ∃ c rest,
        frac.reverse.dropWhile (fun x => x == '0') = c :: rest := by
      rcases h : frac.reverse.dropWhile (fun x => x == '0') with _ | ⟨c, rest⟩
      · exact absurd h hz
      · exact ⟨c, rest, rfl⟩
    have hcmem : c ∈ frac := by
      refine List.mem_reverse.mp (mem_of_mem_dropWhile (fun x => x == '0') frac.reverse c ?_)
      rw [hcr]; exact List.mem_cons_self c rest
    have hcdot : c ≠ '.' := hfrac c hcmem
    rw [hcr, List.cons_append, List.dropWhile_cons_of_neg (by simpa using hcdot)]
    rw [← List.cons_append, ← hcr]
    rw [List.reverse_append]
    simp only [List.reverse_cons, List.reverse_reverse]
    rw [List.append_assoc, List.head?_append_of_ne_nil _ hpre]

theorem trim_trim_data (s : String) :
    (trim_end_matches (trim_end_matches s '0') '.').data
      = ((s.data.reverse.dropWhile (fun x => x == '0')).dropWhile (fun x => x == '.')).reverse := by
  simp [trim_end_matches]

theorem roundHalfEven_intCast (z : ℤ) : roundHalfEven (z : ℚ) = z := by
  simp only [roundHalfEven, Int.floor_intCast, sub_self]
  norm_num

theorem padLeft_frac_ne_dot (m : ℕ) :
    ∀ c ∈ (padLeftZeros 9 (natToString m)).data, c ≠ '.' := by
  intro c hc
  simp only [padLeftZeros, String.data_append, List.mem_append] at hc
  rcases hc with hc | hc
  · have : c = '0' := List.eq_of_mem_replicate (by simpa using hc)
    subst this; decide
  · exact digit_ne_dot c (natToString_digit m c hc)

theorem format_fixed9_data (q : ℚ) :
    (format_fixed9 q).data =
      ((if q < 0 then ['-'] else [])
          ++ (natToString ((roundHalfEven (|q| * 10 ^ 9)).toNat / 10 ^ 9)).data)
        ++ '.' :: (padLeftZeros 9 (natToString ((roundHalfEven (|q| * 10 ^ 9)).toNat % 10 ^ 9))).data := by
  by_cases h : q < 0 <;>
    simp [format_fixed9, h, String.data_append]

theorem fixed9_pre_ne_nil (q : ℚ) :
    ((if q < 0 then ['-'] else [])
        ++ (natToString ((roundHalfEven (|q| * 10 ^ 9)).toNat / 10 ^ 9)).data) ≠ [] := by
  intro h
  rw [List.append_eq_nil] at h
  exact natToString_ne_nil _ h.2

theorem fixed9_pre_last (q : ℚ) :
    ∀ c, ((if q < 0 then ['-'] else [])
        ++ (natToString ((roundHalfEven (|q| * 10 ^ 9)).toNat / 10 ^ 9)).data).getLast? = some c →
      c ≠ '.' := by
  intro c hc
  rw [List.getLast?_append_of_ne_nil _ (natToString_ne_nil _)] at hc
  obtain ⟨h, rfl⟩ := List.mem_getLast?_eq_getLast hc
  exact digit_ne_dot _ (natToString_digit _ _ (List.getLast_mem h))

/-- The head of the zero-and-point-trimmed fixed-point rendering is the
head of its sign-and-integer-part prefix. -/
theorem display_float_head (q : ℚ) :
    (trim_end_matches (trim_end_matches (format_fixed9 q) '0') '.').data.head? =
      ((if q < 0 then ['-'] else [])
          ++ (natToString ((roundHalfEven (|q| * 10 ^ 9)).toNat / 10 ^ 9)).data).head? := by
  rw [trim_trim_data, format_fixed9_data]
  exact rstrip_head _ _ (fixed9_pre_ne_nil q) (padLeft_frac_ne_dot _) (fixed9_pre_last q)

/-- For an integral value the nine fractional digits are all zero, so
trimming removes them together with the point, leaving the sign and the
integer part. -/
theorem display_integral_trim (q : ℚ) (hden : q.den = 1) :
    (trim_end_matches (trim_end_matches (format_fixed9 q) '0') '.').data =
      (if q < 0 then ['-'] else [])
        ++ (natToString ((roundHalfEven (|q| * 10 ^ 9)).toNat / 10 ^ 9)).data := by
  have hq : ((q.num : ℚ)) = q := by
    conv_rhs => rw [← Rat.num_div_den q]
    rw [hden]
    push_cast
    ring
  have hround : roundHalfEven (|q| * 10 ^ 9) = |q.num| * 10 ^ 9 := by
    have habs : |q| * 10 ^ 9 = ((|q.num| * 10 ^ 9 : ℤ) : ℚ) := by
      conv_lhs => rw [← hq]
      push_cast
      ring
    rw [habs, roundHalfEven_intCast]
  have hfp : (roundHalfEven (|q| * 10 ^ 9)).toNat % 10 ^ 9 = 0 := by
    rw [hround, Int.abs_eq_natAbs]
    have hcast : ((q.num.natAbs : ℤ)) * 10 ^ 9 = ((q.num.natAbs * 10 ^ 9 : ℕ) : ℤ) := by
      push_cast
      ring
    rw [hcast, Int.toNat_natCast]
    exact Nat.mul_mod_left _ _
  rw [trim_trim_data, format_fixed9_data, hfp]
  refine rstrip_all_zero _ _ (fixed9_pre_ne_nil q) ?_ (fixed9_pre_last q)
  intro c hc
  simp only [padLeftZeros, String.data_append, List.mem_append] at hc
  rcases hc with hc | hc
  · exact List.eq_of_mem_replicate (by simpa using hc)
  · have h0 : (natToString 0).data = ['0'] := by decide
    rw [h0] at hc
    simpa using hc

theorem intToString_ne_dot (i : ℤ) : ∀ c ∈ (intToString i).data, c ≠ '.' := by
  intro c hc
  by_cases h : i < 0
  · simp only [intToString, if_pos h, String.data_append, List.mem_append] at hc
    rcases hc with hc | hc
    · have : c = '-' := by simpa using hc
      subst this; decide
    · exact digit_ne_dot c (natToString_digit _ c hc)
  · simp only [intToString, if_neg h] at hc
    exact digit_ne_dot c (natToString_digit _ c hc)

theorem intToString_head_ne_space (i : ℤ) :
    ∀ c, (intToString i).data.head? = some c → c ≠ ' ' := by
  intro c hc
  by_cases h : i < 0
  · simp only [intToString, if_pos h, String.data_append] at hc
    have : c = '-' := by simpa using hc.symm
    subst this; decide
  · simp only [intToString, if_neg h] at hc
    refine digit_ne_space c (natToString_digit i.toNat c ?_)
    exact List.mem_of_mem_head? (Option.mem_def.mpr hc)

/-- Unfolding of the numeric display into its sign column and its
integral or trimmed fixed-point rendering. -/
theorem to_display_string_num (q : ℚ) :
    Value.to_display_string (.num q) =
      (if 0 ≤ q then " " else "") ++
        (if q.den = 1 ∧ |q| < 10 ^ 10 then intToString q.num
         else trim_end_matches (trim_end_matches (format_fixed9 q) '0') '.') := by
  by_cases h1 : q.den = 1 ∧ |q| < 10 ^ 10 <;> by_cases h2 : 0 ≤ q <;>
    simp [Value.to_display_string, h1, h2]

/-- The rendered value after the sign column never starts with a
space. -/
theorem formatted_head_ne_space (q : ℚ) :
    ∀ c, ((if q.den = 1 ∧ |q| < 10 ^ 10 then intToString q.num
        else trim_end_matches (trim_end_matches (format_fixed9 q) '0') '.')).data.head? =
        some c → c ≠ ' ' := by
  intro c hc
  by_cases hcase : q.den = 1 ∧ |q| < 10 ^ 10
  · rw [if_pos hcase] at hc
    exact intToString_head_ne_space _ _ hc
  · rw [if_neg hcase] at hc
    rw [display_float_head q] at hc
    by_cases hneg : q < 0
    · rw [if_pos hneg] at hc
      have : c = '-' := by simpa using hc.symm
      subst this; decide
    · rw [if_neg hneg] at hc
      simp only [List.nil_append] at hc
      refine digit_ne_space c
        (natToString_digit ((roundHalfEven (|q| * 10 ^ 9)).toNat / 10 ^ 9) c ?_)
      exact List.mem_of_mem_head? (Option.mem_def.mpr hc)

/-- C2: for every Number value the display formatting renders integral
numbers without a decimal point, renders non-integral numbers through
the nine-fractional-digit rendering with trailing zeros and trailing
point trimmed, prefixes exactly one leading space when the number is
non-negative and none when it is negative, and produces the four
documented example strings. -/
theorem c2_number_display_formatting :
    (∀ q : ℚ, Value.to_display_string (.num q) =
        (if 0 ≤ q then " " else "") ++
          (if q.den = 1 ∧ |q| < 10 ^ 10 then intToString q.num
           else trim_end_matches (trim_end_matches (format_fixed9 q) '0') '.'))
    ∧ (∀ q : ℚ, q.den = 1 → ∀ c ∈ (Value.to_display_string (.num q)).data, c ≠ '.')
    ∧ (∀ q : ℚ, 0 ≤ q → ∃ rest, (Value.to_display_string (.num q)).data = ' ' :: rest ∧
          ∀ c, rest.head? = some c → c ≠ ' ')
    ∧ (∀ q : ℚ, q < 0 → ∀ c, (Value.to_display_string (.num q)).data.head? = some c → c ≠ ' ')
    ∧ Value.to_display_string (.num 5) = " 5"
    ∧ Value.to_display_string (.num (5 / 2)) = " 2.5"
    ∧ Value.to_display_string (.num (-3)) = "-3"
    ∧ Value.to_display_string (.num (10 / 3)) = " 3.333333333" := by
  refine ⟨to_display_string_num, ?_, ?_, ?_, by decide, by decide, by decide, by decide⟩
  · intro q hden c hc
    rw [to_display_string_num] at hc
    simp only [String.data_append, List.mem_append] at hc
    rcases hc with hc | hc
    · by_cases h2 : 0 ≤ q
      · rw [if_pos h2] at hc
        have : c = ' ' := by simpa using hc
        subst this; decide
      · rw [if_neg h2] at hc
        simp at hc
    · by_cases hlt : |q| < 10 ^ 10
      · rw [if_pos ⟨hden, hlt⟩] at hc
        exact intToString_ne_dot _ c hc
      · rw [if_neg (fun h => hlt h.2)] at hc
        rw [display_integral_trim q hden] at hc
        simp only [List.mem_append] at hc
        rcases hc with hc | hc
        · by_cases hneg : q < 0
          · rw [if_pos hneg] at hc
            have : c = '-' := by simpa using hc
            subst this; decide
          · rw [if_neg hneg] at hc
            simp at hc
        · exact digit_ne_dot c (natToString_digit _ c hc)
  · intro q hq
    rw [to_display_string_num, if_pos hq]
    refine ⟨((if q.den = 1 ∧ |q| < 10 ^ 10 then intToString q.num
        else trim_end_matches (trim_end_matches (format_fixed9 q) '0') '.')).data,
      ?_, formatted_head_ne_space q⟩
    simp [String.data_append]
  · intro q hq c hc
    rw [to_display_string_num, if_neg (not_le.mpr hq)] at hc
    have hempty : (("" : String) ++
        (if q.den = 1 ∧ |q| < 10 ^ 10 then intToString q.num
         else trim_end_matches (trim_end_matches (format_fixed9 q) '0') '.')).data =
        ((if q.den = 1 ∧ |q| < 10 ^ 10 then intToString q.num
         else trim_end_matches (trim_end_matches (format_fixed9 q) '0') '.')).data := by
      simp [String.data_append]
    rw [hempty] at hc
    exact formatted_head_ne_space q c hc

/-- Witness for C2 at the concrete value five halves. -/
theorem c2_witness :
    ∃ rest, (Value.to_display_string (.num (5 / 2))).data = ' ' :: rest ∧
      ∀ c, rest.head? = some c → c ≠ ' ' :=
  c2_number_display_formatting.2.2.1 (5 / 2) (by decide)

/-- C10: evaluating a scalar variable reference never errors; a name
that was never assigned yields the empty string for dollar-suffixed
names and the number zero otherwise, so an unknown-variable error is
never produced by scalar reference evaluation. -/
theorem c10_unassigned_scalar_default :
    (∀ (s : Interpreter) (name : String), ∃ v, eval_expr (.Variable name) s = .ok (v, s))
    ∧ (∀ (s : Interpreter) (name : String), getA s.variables_ name = none →
        eval_expr (.Variable name) s =
          .ok ((if ends_dollar name then Value.str "" else Value.num 0), s)) := by
  constructor
  · intro s name
    cases h : getA s.variables_ name with
    | some v => exact ⟨v, by simp [eval_expr, h]⟩
    | none =>
        exact ⟨(if ends_dollar name then Value.str "" else Value.num 0),
          by simp [eval_expr, h]⟩
  · intro s name h
    simp [eval_expr, h]

/-- Witness for C10 at a concrete fresh interpreter and name. -/
theorem c10_witness :
    eval_expr (.Variable "N") (Interpreter.new []) =
      .ok (Value.num 0, Interpreter.new []) := by
  have h := c10_unassigned_scalar_default.2 (Interpreter.new []) "N" rfl
  simpa [show ends_dollar "N" = false from rfl] using h

theorem sliceIs_get_head (chars : List Char) (i : ℕ) (kw : String) (c : Char)
    (rest : List Char) (hk : kw.data = c :: rest) (h : sliceIs chars i kw = true) :
    chars[i]? = some c := by
  have heq : (chars.drop i).take kw.length = kw.data := by simpa [sliceIs] using h
  have hlen : 0 < kw.length := by simp [String.length, hk]
  have h0 : ((chars.drop i).take kw.length).get? 0 = some c := by
    rw [heq, hk]; rfl
  rw [List.get?_eq_getElem?, List.getElem?_take, if_pos hlen, List.getElem?_drop] at h0
  simpa using h0

theorem sliceIs_and_not_or (chars : List Char) (i : ℕ)
    (h : sliceIs chars i "AND" = true) : sliceIs chars i "OR" = false := by
  cases hOR : sliceIs chars i "OR" with
  | false => rfl
  | true =>
      have h1 := sliceIs_get_head chars i "AND" 'A' ['N', 'D'] rfl h
      have h2 := sliceIs_get_head chars i "OR" 'O' ['R'] rfl hOR
      rw [h1] at h2
      simp at h2

/-- C3: in the second normalization pass, an AND or OR occurrence
scanned outside a string literal is replaced by the spaced keyword
exactly when both neighbours are boundaries, both are identifier
characters, or the preceding side is a boundary and the following side
an identifier character; an occurrence whose preceding side is an
identifier character and whose following side is a boundary is copied
through unchanged. -/
theorem c3_and_or_normalization_rule :
    (∀ p n : Bool, should_normalize p n = true ↔
        ((p = true ∧ n = true) ∨ (p = false ∧ n = false) ∨ (p = true ∧ n = false)))
    ∧ (should_normalize false true = false)
    ∧ (∀ (chars : List Char) (fuel i : ℕ) (acc : String),
        sliceIs chars i "AND" = true →
        ((should_normalize (prev_not_id chars i) (next_not_id chars (i + 3)) = true →
            normalize_pass2 chars (fuel + 1) i false acc =
              normalize_pass2 chars fuel (i + 3) false (acc ++ " AND ")) ∧
         (should_normalize (prev_not_id chars i) (next_not_id chars (i + 3)) = false →
            normalize_pass2 chars (fuel + 1) i false acc =
              normalize_pass2 chars fuel (i + 1) false (acc.push 'A'))))
    ∧ (∀ (chars : List Char) (fuel i : ℕ) (acc : String),
        sliceIs chars i "OR" = true →
        ((should_normalize (prev_not_id chars i) (next_not_id chars (i + 2)) = true →
            normalize_pass2 chars (fuel + 1) i false acc =
              normalize_pass2 chars fuel (i + 2) false (acc ++ " OR ")) ∧
         (should_normalize (prev_not_id chars i) (next_not_id chars (i + 2)) = false →
            normalize_pass2 chars (fuel + 1) i false acc =
              normalize_pass2 chars fuel (i + 1) false (acc.push 'O')))) := by
  refine ⟨by decide, by decide, ?_, ?_⟩
  · intro chars fuel i acc hA
    have hget : chars[i]? = some 'A' := sliceIs_get_head chars i "AND" 'A' ['N', 'D'] rfl hA
    constructor <;> intro hs <;>
      simp [normalize_pass2, hget, hA, hs, sliceIs_and_not_or chars i hA]
  · intro chars fuel i acc hO
    have hget : chars[i]? = some 'O' := sliceIs_get_head chars i "OR" 'O' ['R'] rfl hO
    have hnA : sliceIs chars i "AND" = false := by
      cases hAND : sliceIs chars i "AND" with
      | false => rfl
      | true =>
          have h1 := sliceIs_get_head chars i "AND" 'A' ['N', 'D'] rfl hAND
          rw [hget] at h1
          simp at h1
    constructor <;> intro hs <;>
      simp [normalize_pass2, hget, hO, hs, hnA]

/-- Witness for C3: the occurrence of AND in XZ>8ANDXZ, glued between
the digit and the variable, is spaced out by the pass. -/
theorem c3_witness :
    normalize_pass2 ("XZ>8ANDXZ".data) 6 4 false "XZ>8" =
      normalize_pass2 ("XZ>8ANDXZ".data) 5 7 false "XZ>8 AND " :=
  (c3_and_or_normalization_rule.2.2.1 ("XZ>8ANDXZ".data) 5 4 "XZ>8" (by decide)).1 (by decide)

@[simp] theorem bindE_ok {ε α β : Type} (a : α) (f : α → Except ε β) :
    (Except.ok a : Except ε α).bind f = f a := rfl

@[simp] theorem bindE_error {ε α β : Type} (e : ε) (f : α → Except ε β) :
    (Except.error e : Except ε α).bind f = .error e := rfl

@[simp] theorem bindEM_ok {ε α β : Type} (a : α) (f : α → Except ε β) :
    ((Except.ok a : Except ε α) >>= f) = f a := rfl

@[simp] theorem bindEM_error {ε α β : Type} (e : ε) (f : α → Except ε β) :
    ((Except.error e : Except ε α) >>= f) = .error e := rfl

/-- A runtime state whose innermost FOR frame has step zero, loop
variable at one and end value one, used to refute the claimed NEXT
loop condition. -/
def c4_state : Interpreter :=
  { (Interpreter.new []) with
      variables_ := [("I", Value.num 1)],
      for_stack := [⟨"I", 1, 0, 10, 1⟩],
      current_line := some 10,
      statement_idx := 3 }

/-- C4 counterexample: with step zero, variable one and end one, the
claimed loop condition (step positive and the advanced variable at most
the end, or step negative and the advanced variable at least the end)
is false, so the claim predicts the frame is popped and execution falls
through; the code instead keeps the frame and jumps back to the resume
position. -/
theorem c4_counterexample :
    (¬((0 < (0 : ℚ) ∧ (1 : ℚ) + 0 ≤ 1) ∨ ((0 : ℚ) < 0 ∧ (1 : ℚ) ≤ 1 + 0))) ∧
    (exec_next none c4_state).map
        (fun s2 => (s2.for_stack.length, s2.current_line, s2.statement_idx)) =
      .ok (1, some 10, 1) :=
  ⟨by decide, rfl⟩

/-- C4 amended: NEXT with an empty frame stack fails with the NEXT
without FOR error; with a non-empty stack whose innermost frame
variable holds a number, it acts on that frame regardless of the
supplied name, computes the advanced value, and either stores it and
jumps back to the resume position (when the step is positive and the
advanced value is at most the end, or the step is not positive and the
advanced value is at least the end) or pops the frame leaving the
variable unchanged. -/
theorem c4_next_semantics :
    (∀ (s : Interpreter) (vr : Option String), s.for_stack = [] →
        exec_next vr s = .error "NEXT without FOR")
    ∧ (∀ (s : Interpreter) (fl : ForLoop) (rest : List ForLoop)
          (vr : Option String) (cv : ℚ),
        s.for_stack = fl :: rest →
        getA s.variables_ fl.variable_ = some (Value.num cv) →
        exec_next vr s =
          if (0 < fl.step ∧ cv + fl.step ≤ fl.end_value) ∨
             (¬0 < fl.step ∧ fl.end_value ≤ cv + fl.step) then
            .ok { s with
              variables_ := insertA s.variables_ fl.variable_ (Value.num (cv + fl.step)),
              current_line := some fl.line_num,
              statement_idx := fl.statement_idx }
          else
            .ok { s with for_stack := rest }) := by
  constructor
  · intro s vr h
    simp [exec_next, h]
  · intro s fl rest vr cv hstack hvar
    by_cases hstep : 0 < fl.step
    · by_cases hle : cv + fl.step ≤ fl.end_value
      · rw [if_pos (Or.inl ⟨hstep, hle⟩)]
        simp [exec_next, hstack, hvar, Value.as_number, hstep, hle]
      · rw [if_neg (by tauto)]
        simp [exec_next, hstack, hvar, Value.as_number, hstep, hle]
    · by_cases hge : fl.end_value ≤ cv + fl.step
      · rw [if_pos (Or.inr ⟨hstep, hge⟩)]
        simp [exec_next, hstack, hvar, Value.as_number, hstep, hge]
      · rw [if_neg (by tauto)]
        simp [exec_next, hstack, hvar, Value.as_number, hstep, hge]

/-- Witness for C4 at a continuing concrete frame. -/
theorem c4_witness :
    exec_next (some "J") c4_state =
      .ok { c4_state with
        variables_ := insertA c4_state.variables_ "I" (Value.num 1),
        current_line := some 10,
        statement_idx := 1 } := by
  have h := c4_next_semantics.2 c4_state ⟨"I", 1, 0, 10, 1⟩ [] (some "J") 1 rfl rfl
  rw [if_pos (by norm_num)] at h
  simpa using h

theorem findA_none {α : Type} (m : List (String × α)) (k : String)
    (h : m.any (fun e => e.1 == k) = false) :
    m.find? (fun e => e.1 == k) = none := by
  induction m with
  | nil => rfl
  | cons e t ih =>
      rw [List.any_cons, Bool.or_eq_false_iff] at h
      rw [List.find?_cons, h.1, ih h.2]

theorem findA_map_self {α : Type} (m : List (String × α)) (k : String) (v : α)
    (h : m.any (fun e => e.1 == k) = true) :
    (m.map (fun e => if e.1 == k then (k, v) else e)).find? (fun e => e.1 == k) =
      some (k, v) := by
  induction m with
  | nil => simp at h
  | cons e t ih =>
      by_cases he : (e.1 == k) = true
      · simp only [List.map_cons, if_pos he]
        rw [List.find?_cons]
        simp
      · rw [List.any_cons, Bool.or_eq_true] at h
        rcases h with h | h
        · exact absurd h he
        · simp only [List.map_cons, if_neg he]
          rw [List.find?_cons]
          simp only [Bool.not_eq_true] at he
          rw [he, ih h]

/-- HashMap insert followed by get at the same key yields the inserted
value. -/
theorem getA_insertA_self {α : Type} (m : List (String × α)) (k : String) (v : α) :
    getA (insertA m k v) k = some v := by
  unfold insertA getA
  by_cases h : m.any (fun e => e.1 == k) = true
  · rw [if_pos h, findA_map_self m k v h]
    rfl
  · rw [if_neg h]
    rw [List.find?_append, findA_none m k (Bool.eq_false_iff.mpr h)]
    simp [List.find?_cons]

theorem dims_product_cons_aux (ds : List ℕ) :
    ∀ a : ℕ, ds.foldl (fun x y => x * y) a = a * dims_product ds := by
  induction ds with
  | nil => intro a; simp [dims_product]
  | cons d t ih =>
      intro a
      show t.foldl (fun x y => x * y) (a * d) = a * dims_product (d :: t)
      rw [ih (a * d)]
      show a * d * dims_product t = a * dims_product (d :: t)
      have : dims_product (d :: t) = d * dims_product t := by
        show t.foldl (fun x y => x * y) (1 * d) = d * dims_product t
        rw [ih (1 * d)]
        ring
      rw [this]
      ring

theorem dims_product_cons (d : ℕ) (ds : List ℕ) :
    dims_product (d :: ds) = d * dims_product ds := by
  show ds.foldl (fun x y => x * y) (1 * d) = d * dims_product ds
  rw [dims_product_cons_aux ds (1 * d)]
  ring

/-- The flattening loop succeeds with a flat index below the storage
size when every index is below its dimension size. -/
theorem calc_flat_go_ok (idxs dims : List ℕ) (h : List.Forall₂ (· < ·) idxs dims) :
    ∃ f, calc_flat_go idxs dims = .ok f ∧ f < dims_product dims := by
  induction h with
  | nil => exact ⟨0, rfl, by simp [dims_product]⟩
  | @cons i d is ds hid htail ih =>
      obtain ⟨f, hf, hlt⟩ := ih
      refine ⟨i * dims_product ds + f, ?_, ?_⟩
      · simp [calc_flat_go, Nat.not_le.mpr hid, hf]
      · rw [dims_product_cons]
        calc i * dims_product ds + f < i * dims_product ds + dims_product ds := by omega
          _ = (i + 1) * dims_product ds := by ring
          _ ≤ d * dims_product ds := Nat.mul_le_mul_right _ hid

/-- The flattening loop reports the out-of-bounds error when the index
lists have equal length but some index reaches its dimension size. -/
theorem calc_flat_go_oob (idxs dims : List ℕ) (hlen : idxs.length = dims.length)
    (h : ¬List.Forall₂ (· < ·) idxs dims) :
    calc_flat_go idxs dims = .error "Array index out of bounds" := by
  induction idxs generalizing dims with
  | nil =>
      cases dims with
      | nil => exact absurd List.Forall₂.nil h
      | cons d ds => simp at hlen
  | cons i is ih =>
      cases dims with
      | nil => simp at hlen
      | cons d ds =>
          by_cases hid : i < d
          · have htail : ¬List.Forall₂ (· < ·) is ds := by
              intro ht
              exact h (List.Forall₂.cons hid ht)
            have := ih ds (by simpa using hlen) htail
            simp [calc_flat_go, Nat.not_le.mpr hid, this]
          · simp [calc_flat_go, Nat.le_of_not_lt hid]

theorem usize_lit (i : ℕ) (h : i < 2 ^ 64) : usizeOfInt (i : ℤ) = i := by
  rw [usizeOfInt, Int.emod_eq_of_lt (by positivity) (by exact_mod_cast h)]
  simp

theorem eval_index_list_lits (idxs : List ℕ) (s : Interpreter)
    (h : ∀ i ∈ idxs, i < 2 ^ 64) :
    eval_index_list (idxs.map (fun i : ℕ => Expr.Number (i : ℚ))) s = .ok (idxs, s) := by
  induction idxs with
  | nil => simp [eval_index_list]
  | cons i is ih =>
      have hi : usizeOfInt (i : ℤ) = i := usize_lit i (h i (by simp))
      simp [eval_index_list, eval_expr, Value.as_int, Value.as_number,
        ih (fun j hj => h j (by simp [hj])), hi]

theorem exec_dim_sizes_lits (bs : List ℕ) (s : Interpreter)
    (h : ∀ b ∈ bs, b < 2 ^ 64) :
    exec_dim_sizes (bs.map (fun b : ℕ => Expr.Number (b : ℚ))) s =
      .ok (bs.map (fun b => b + 1), s) := by
  induction bs with
  | nil => simp [exec_dim_sizes]
  | cons b bs ih =>
      have hb : usizeOfInt (b : ℤ) = b := usize_lit b (h b (by simp))
      simp [exec_dim_sizes, eval_expr, Value.as_int, Value.as_number,
        ih (fun j hj => h j (by simp [hj])), hb]

/-- The state produced by a DIM of one name with the given inclusive
bounds: sizes are the bounds plus one, the storage is their product
filled with the suffix default, and both maps are overwritten. -/
def dim_result (s : Interpreter) (name : String) (bs : List ℕ) : Interpreter :=
  { s with
      arrays := insertA s.arrays name
        (List.replicate (dims_product (bs.map (fun b => b + 1)))
          (if ends_dollar name then Value.str "" else Value.num 0)),
      array_dimensions := insertA s.array_dimensions name (bs.map (fun b => b + 1)) }

/-- C6: a DIM declaration treats each evaluated bound as inclusive
(per-dimension size is the bound plus one, storage is the product of
the sizes, every element is the zero or empty-string default by name
suffix); afterwards an array read with every index at most its bound
succeeds with the default element, while a read with the wrong number
of indices or with any index above its bound fails with the
corresponding fatal error.  The flat-index computation itself is also
characterized: it succeeds below the storage size exactly on in-range
index vectors. -/
theorem c6_dim_bounds_and_access :
    (∀ (s : Interpreter) (name : String) (bs : List ℕ), (∀ b ∈ bs, b < 2 ^ 64) →
        exec_dim [⟨name, bs.map (fun b : ℕ => Expr.Number (b : ℚ))⟩] s =
          .ok (dim_result s name bs))
    ∧ (∀ idxs dims : List ℕ, idxs.length ≠ dims.length →
        calculate_flat_index idxs dims = .error "Array dimension mismatch")
    ∧ (∀ idxs dims : List ℕ, List.Forall₂ (· < ·) idxs dims →
        ∃ f, calculate_flat_index idxs dims = .ok f ∧ f < dims_product dims)
    ∧ (∀ idxs dims : List ℕ, idxs.length = dims.length →
        ¬List.Forall₂ (· < ·) idxs dims →
        calculate_flat_index idxs dims = .error "Array index out of bounds")
    ∧ (∀ (s : Interpreter) (name : String) (bs idxs : List ℕ),
        (∀ b ∈ bs, b < 2 ^ 64) → (∀ i ∈ idxs, i < 2 ^ 64) →
        List.Forall₂ (· ≤ ·) idxs bs →
        eval_expr (.ArrayAccess name (idxs.map (fun i : ℕ => Expr.Number (i : ℚ))))
            (dim_result s name bs) =
          .ok ((if ends_dollar name then Value.str "" else Value.num 0), dim_result s name bs))
    ∧ (∀ (s : Interpreter) (name : String) (bs idxs : List ℕ),
        (∀ i ∈ idxs, i < 2 ^ 64) → idxs.length ≠ bs.length →
        eval_expr (.ArrayAccess name (idxs.map (fun i : ℕ => Expr.Number (i : ℚ))))
            (dim_result s name bs) =
          .error "Array dimension mismatch")
    ∧ (∀ (s : Interpreter) (name : String) (bs idxs : List ℕ),
        (∀ i ∈ idxs, i < 2 ^ 64) → idxs.length = bs.length →
        ¬List.Forall₂ (· ≤ ·) idxs bs →
        eval_expr (.ArrayAccess name (idxs.map (fun i : ℕ => Expr.Number (i : ℚ))))
            (dim_result s name bs) =
          .error "Array index out of bounds") := by
  have hflat_mismatch : ∀ idxs dims : List ℕ, idxs.length ≠ dims.length →
      calculate_flat_index idxs dims = .error "Array dimension mismatch" := by
    intro idxs dims h
    simp [calculate_flat_index, h]
  have hflat_ok : ∀ idxs dims : List ℕ, List.Forall₂ (· < ·) idxs dims →
      ∃ f, calculate_flat_index idxs dims = .ok f ∧ f < dims_product dims := by
    intro idxs dims h
    obtain ⟨f, hf, hlt⟩ := calc_flat_go_ok idxs dims h
    exact ⟨f, by simp [calculate_flat_index, h.length_eq, hf], hlt⟩
  have hflat_oob : ∀ idxs dims : List ℕ, idxs.length = dims.length →
      ¬List.Forall₂ (· < ·) idxs dims →
      calculate_flat_index idxs dims = .error "Array index out of bounds" := by
    intro idxs dims hlen h
    simp [calculate_flat_index, hlen, calc_flat_go_oob idxs dims hlen h]
  have hdim : ∀ (s : Interpreter) (name : String) (bs : List ℕ), (∀ b ∈ bs, b < 2 ^ 64) →
      exec_dim [⟨name, bs.map (fun b : ℕ => Expr.Number (b : ℚ))⟩] s =
        .ok (dim_result s name bs) := by
    intro s name bs hb
    simp [exec_dim, exec_dim_sizes_lits bs s hb, dim_result]
  refine ⟨hdim, hflat_mismatch, hflat_ok, hflat_oob, ?_, ?_, ?_⟩
  · intro s name bs idxs hb hi hle
    have hlt : List.Forall₂ (· < ·) idxs (bs.map (fun b => b + 1)) := by
      rw [List.forall₂_map_right_iff]
      exact hle.imp (fun ha => by omega)
    obtain ⟨f, hf, hfl⟩ := hflat_ok idxs (bs.map (fun b => b + 1)) hlt
    simp [eval_expr, eval_index_list_lits idxs _ hi, dim_result, getA_insertA_self,
      hf, List.getElem?_replicate, hfl]
  · intro s name bs idxs hi hlen
    have hlen2 : idxs.length ≠ (bs.map (fun b => b + 1)).length := by
      simpa using hlen
    simp [eval_expr, eval_index_list_lits idxs _ hi, dim_result, getA_insertA_self,
      hflat_mismatch idxs _ hlen2]
  · intro s name bs idxs hi hlen hnle
    have hnlt : ¬List.Forall₂ (· < ·) idxs (bs.map (fun b => b + 1)) := by
      intro hlt
      apply hnle
      rw [List.forall₂_map_right_iff] at hlt
      exact hlt.imp (fun ha => by omega)
    have hlen2 : idxs.length = (bs.map (fun b => b + 1)).length := by simpa using hlen
    simp [eval_expr, eval_index_list_lits idxs _ hi, dim_result, getA_insertA_self,
      hflat_oob idxs _ hlen2 hnlt]

/-- Witness for C6: DIM A(10) makes index ten readable and index
eleven a fatal out-of-bounds error. -/
theorem c6_witness :
    exec_dim [⟨"A", ([10] : List ℕ).map (fun b : ℕ => Expr.Number (b : ℚ))⟩] (Interpreter.new []) =
        .ok (dim_result (Interpreter.new []) "A" [10]) ∧
    eval_expr (.ArrayAccess "A" (([10] : List ℕ).map (fun i : ℕ => Expr.Number (i : ℚ))))
        (dim_result (Interpreter.new []) "A" [10]) =
      .ok (Value.num 0, dim_result (Interpreter.new []) "A" [10]) ∧
    eval_expr (.ArrayAccess "A" (([11] : List ℕ).map (fun i : ℕ => Expr.Number (i : ℚ))))
        (dim_result (Interpreter.new []) "A" [10]) =
      .error "Array index out of bounds" := by
  refine ⟨c6_dim_bounds_and_access.1 (Interpreter.new []) "A" [10] (by decide), ?_, ?_⟩
  · have h := c6_dim_bounds_and_access.2.2.2.2.1 (Interpreter.new []) "A" [10] [10]
      (by decide) (by decide) (List.Forall₂.cons (le_refl 10) List.Forall₂.nil)
    simpa [show ends_dollar "A" = false from rfl] using h
  · exact c6_dim_bounds_and_access.2.2.2.2.2.2 (Interpreter.new []) "A" [10] [11]
      (by decide) (by decide) (by intro h; cases h; omega)

set_option maxRecDepth 8000 in
/-- C8: the raw line 10 IFXZ>8ANDXZ<=2THENKJ=2, after keyword
normalization and recursive descent, parses to line 10 holding one If
whose condition is XZ>8 AND XZ<=2, with no then_line and the inline
branch consisting of the single assignment KJ=2. -/
theorem c8_glued_keyword_parse :
    parse_program "10 IFXZ>8ANDXZ<=2THENKJ=2" =
      .ok ⟨[(10, [Statement.If
          (Expr.BinaryOp
            (Expr.BinaryOp (Expr.Variable "XZ") BinOp.Gt (Expr.Number 8))
            BinOp.And
            (Expr.BinaryOp (Expr.Variable "XZ") BinOp.Le (Expr.Number 2)))
          [Statement.Let ⟨"KJ", none, Expr.Number 2⟩]
          none])]⟩ := rfl

set_option maxRecDepth 8000 in
/-- C7 counterexample: a FOR header missing its TO does not come back
on the parser\x27s recoverable error channel (Result::Err in the
source): consume_word panics, modelled by the distinguished abort
constructor, so the claim that parsing never terminates the process by
panicking is false. -/
theorem c7_counterexample :
    parse_program "10 FORI=1" =
      .error (.abort "Expected \x27T\x27, found end of input while consuming \x27TO\x27") := rfl

set_option maxRecDepth 8000 in
/-- C7 (amended): parse failures travel on two channels.  Keyword
consumption failures always panic (never yield a recoverable error),
e.g. a FOR header missing its TO; other failures are returned as
descriptive error values that abort the whole parse with no partial
program, e.g. GOTO with no line number. -/
theorem c7_parse_failure_channels :
    (∀ (word : String) (cs : List Char) (p : Parser) (msg : String),
        consume_wordAux word cs p ≠ .error (.err msg))
    ∧ parse_program "10 FORI=1" =
        .error (.abort "Expected \x27T\x27, found end of input while consuming \x27TO\x27")
    ∧ parse_program "10 GOTO" = .error (.err "Invalid number") := by
  refine ⟨?_, rfl, rfl⟩
  intro word cs
  induction cs with
  | nil => intro p msg; simp [consume_wordAux]
  | cons ec rest ih =>
      intro p msg h
      rw [consume_wordAux] at h
      rcases hadv : p.advance with ⟨o, p1⟩
      rw [hadv] at h
      cases o with
      | none => simp at h
      | some c =>
          dsimp only at h
          by_cases hc : c = ec
          · rw [if_pos hc] at h
            exact ih p1 msg h
          · rw [if_neg hc] at h
            simp at h

/-- Witness for the universally quantified conjunct of C7: a concrete
instantiation showing a consume_word failure is not a recoverable
error. -/
theorem c7_witness :
    consume_wordAux "TO" (['T', 'O'] : List Char) (Parser.new "") ≠
      .error (.err "m") :=
  c7_parse_failure_channels.1 "TO" ['T', 'O'] (Parser.new "") "m"

/-- C9 counterexample: the token table has 76 entries, not 128, so
byte 204 ($CC) is outside the table and detokenization of a line
containing it fails even though 204 - 128 = 76 would index a 128-entry
table.  The program below is a single line 10 whose only content byte
is 204. -/
theorem c9_counterexample :
    TOKENS.length = 76 ∧
    detokenize_program [1, 8, 10, 0, 204, 0, 0, 0] =
      .error "Unknown token $CC at position 4 (line 10)" := ⟨rfl, rfl⟩

/-- One-step unfolding of detok_line at positive fuel, proved
definitionally; rewriting with the recursive definition directly is
out of reach for the elaborator. -/
theorem detok_line_succ (bytes : List ℕ) (ln fuel pos : ℕ) (iq ir la : Bool)
    (acc : String) :
    detok_line bytes ln (fuel + 1) pos iq ir la acc =
      match bytes.get? pos with
      | none => .ok (acc, pos)
      | some b =>
          if b = 0 then .ok (acc, pos)
          else
            let pos := pos + 1
            if b = 34 then
              detok_line bytes ln fuel pos (!iq) ir false (acc.push '"')
            else if iq || ir then
              detok_line bytes ln fuel pos iq ir false
                (acc.push (petscii_to_ascii b))
            else if 128 ≤ b then
              match TOKENS.get? (b - 128) with
              | some token =>
                  let acc := if la && needs_space token then acc.push ' ' else acc
                  let acc := acc ++ token
                  let ir := if token = "REM" then true else ir
                  let space_after :=
                    match bytes.get? pos with
                    | some next_byte => is_alnum_byte next_byte && needs_space token
                    | none => false
                  let acc := if space_after then acc.push ' ' else acc
                  detok_line bytes ln fuel pos iq ir false acc
              | none =>
                  .error s!"Unknown token ${hex2 b} at position {pos - 1} (line {ln})"
            else
              detok_line bytes ln fuel pos iq ir (is_alnum_byte b)
                (acc.push (petscii_to_ascii b)) := rfl

/-- C9 (amended): outside string literals and REM remarks, a content
byte of at least 128 is decoded by indexing byte minus 128 into the
fixed 76-entry token table (which does cover every statement keyword
and builtin function name of the dialect); when the index is inside
the table the token text is appended (with the spacing heuristic) and
decoding continues, and exactly when the index falls outside the table
(byte at least 204) detokenization fails with a hard decode error
naming the byte, its position and the line. -/
theorem c9_token_table :
    TOKENS.length = 76
    ∧ (∀ b : ℕ, 128 ≤ b → ((TOKENS.get? (b - 128)).isSome ↔ b < 204))
    ∧ (∀ (bytes : List ℕ) (ln fuel pos : ℕ) (la : Bool) (acc : String) (b : ℕ)
        (token : String),
        bytes.get? pos = some b → 128 ≤ b → b ≠ 34 →
        TOKENS.get? (b - 128) = some token →
        detok_line bytes ln (fuel + 1) pos false false la acc =
          detok_line bytes ln fuel (pos + 1) false
            (if token = "REM" then true else false) false
            (let acc1 := if la && needs_space token then acc.push ' ' else acc
             let acc2 := acc1 ++ token
             if ((bytes.get? (pos + 1)).elim false
                  (fun nb => is_alnum_byte nb && needs_space token)) = true
             then acc2.push ' ' else acc2))
    ∧ (∀ (bytes : List ℕ) (ln fuel pos : ℕ) (la : Bool) (acc : String) (b : ℕ),
        bytes.get? pos = some b → 204 ≤ b →
        detok_line bytes ln (fuel + 1) pos false false la acc =
          .error s!"Unknown token ${hex2 b} at position {pos} (line {ln})")
    ∧ (∀ kw ∈ statement_keywords, kw ∈ TOKENS)
    ∧ (∀ f : String, is_function f = true → f ∈ TOKENS) := by
  refine ⟨rfl, ?_, ?_, ?_, by decide, ?_⟩
  · intro b hb
    have hlen : TOKENS.length = 76 := rfl
    rw [Option.isSome_iff_ne_none]
    constructor
    · intro h
      by_contra hlt
      exact h (List.get?_eq_none.mpr (by omega))
    · intro h
      rw [Ne, List.get?_eq_none]
      omega
  · intro bytes ln fuel pos la acc b token hb h128 h34 htok
    have hb0 : b ≠ 0 := by omega
    rw [detok_line_succ, hb]
    simp only [List.get?_eq_getElem?] at htok
    simp [hb0, h34, h128, htok]
    cases hnb : bytes[pos + 1]? <;> simp [hnb]
  · intro bytes ln fuel pos la acc b hb h204
    have hb0 : b ≠ 0 := by omega
    have h34 : b ≠ 34 := by omega
    have h128 : 128 ≤ b := by omega
    have htok : TOKENS.get? (b - 128) = none := by
      rw [List.get?_eq_none]
      have hlen : TOKENS.length = 76 := rfl
      omega
    rw [detok_line_succ, hb]
    simp only [List.get?_eq_getElem?] at htok
    simp [hb0, h34, h128, htok]
  · intro f hf
    simp only [is_function, List.any_eq_true, beq_iff_eq] at hf
    obtain ⟨x, hx, hxe⟩ := hf
    subst hxe
    fin_cases hx <;> decide

/-- Witness for C9: byte 153 decodes as PRINT and continues, byte 204
is rejected, PRINT is both a statement keyword and a table entry. -/
theorem c9_witness :
    detok_line [153, 0] 10 1 0 false false false "" =
        detok_line [153, 0] 10 0 1 false false false "PRINT"
    ∧ detok_line [204] 10 1 0 false false false "" =
        .error "Unknown token $CC at position 0 (line 10)"
    ∧ "PRINT" ∈ TOKENS := by
  refine ⟨?_, ?_, c9_token_table.2.2.2.2.1 "PRINT" (by decide)⟩
  · exact (c9_token_table.2.2.1 [153, 0] 10 0 0 false "" 153 "PRINT" rfl
      (by omega) (by omega) rfl).trans (by rfl)
  · exact (c9_token_table.2.2.2.1 [204] 10 0 0 false "" 204 rfl (by omega)).trans (by rfl)

/-- The two-line INPUT program of the resumability property. -/
def c5_source : String := "10 INPUT \"NAME\";N$\n20 PRINT N$"

/-- The interpreter just after loading the INPUT program. -/
def c5_s0 : Interpreter :=
  match load_program (Interpreter.new []) c5_source with
  | .ok s => s
  | .error _ => Interpreter.new []

/-- The first step: executes the INPUT statement. -/
def c5_step1 : Except String (Bool × Interpreter) := step c5_s0

/-- The state after the first step: prompt printed, waiting. -/
def c5_s1 : Interpreter :=
  match c5_step1 with
  | .ok (_, s) => s
  | .error _ => Interpreter.new []

/-- The state after the host delivers E, N, Z, O and the commit
signal. -/
def c5_s2 : Interpreter :=
  ((((c5_s1.handle_input_char 'E').handle_input_char 'N').handle_input_char
      'Z').handle_input_char 'O').handle_input_enter

/-- The step taken right after the commit. -/
def c5_step2 : Except String (Bool × Interpreter) := step c5_s2

/-- The state after the post-commit step. -/
def c5_s3 : Interpreter :=
  match c5_step2 with
  | .ok (_, s) => s
  | .error _ => Interpreter.new []

set_option maxRecDepth 8000 in
set_option maxHeartbeats 2000000 in
/-- C5: the INPUT commit path does not resume at the following
statement.  Executing INPUT "NAME";N$ prints the prompt, arms the
waiting state and re-arms the same statement; feeding E, N, Z, O and
the commit signal stores N$ = "ENZO" as claimed — but the statement
position is still parked on the INPUT, so the very next step
re-executes the INPUT and re-prompts (the screen gains a second NAME
prompt and the waiting state is armed again) instead of resuming at
line 20. -/
theorem c5_input_commit_reprompts :
    (c5_step1.map Prod.fst = .ok true)
    ∧ (c5_s1.waiting_for_input, c5_s1.input_variable, c5_s1.current_line,
        c5_s1.statement_idx, c5_s1.screen) = (true, some "N$", some 10, 0, [.print "NAME"])
    ∧ getA c5_s2.variables_ "N$" = some (.str "ENZO")
    ∧ (c5_s2.waiting_for_input, c5_s2.current_line, c5_s2.statement_idx,
        c5_s2.screen) = (false, some 10, 0,
          [.print "NAME", .print "E", .print "N", .print "Z", .print "O", .println ""])
    ∧ c5_step2.map Prod.fst = .ok true
    ∧ (c5_s3.waiting_for_input, c5_s3.input_variable, c5_s3.current_line,
        c5_s3.statement_idx) = (true, some "N$", some 10, 0)
    ∧ c5_s3.screen = c5_s2.screen ++ [.print "NAME"] :=
  ⟨rfl, rfl, rfl, rfl, rfl, rfl, rfl⟩

/-- A some result of minKey? is a member of the list and a lower bound
of it. -/
theorem minKey?_some_spec :
    ∀ (ks : List ℕ) (m : ℕ), minKey? ks = some m → m ∈ ks ∧ ∀ k ∈ ks, m ≤ k := by
  intro ks
  induction ks with
  | nil => intro m h; simp [minKey?] at h
  | cons k ks ih =>
      intro m h
      rw [minKey?] at h
      cases hks : minKey? ks with
      | none =>
          rw [hks] at h
          have hnil : ks = [] := by
            cases ks with
            | nil => rfl
            | cons a as =>
                rw [minKey?] at hks
                cases h2 : minKey? as <;> rw [h2] at hks <;> simp at hks
          obtain rfl : k = m := by simpa using h
          subst hnil
          simp
      | some m2 =>
          rw [hks] at h
          obtain rfl : min k m2 = m := by simpa using h
          obtain ⟨hmem, hle⟩ := ih m2 hks
          constructor
          · rcases le_total k m2 with hkm | hkm
            · simp [min_eq_left hkm]
            · rw [min_eq_right hkm]
              exact List.mem_cons_of_mem k hmem
          · intro j hj
            rcases List.mem_cons.mp hj with h1 | hj2
            · rw [h1]
              exact min_le_left k m2
            · exact le_trans (min_le_right k m2) (hle j hj2)

/-- A none result of minKey? only happens on the empty list. -/
theorem minKey?_eq_none : ∀ ks : List ℕ, minKey? ks = none → ks = [] := by
  intro ks h
  cases ks with
  | nil => rfl
  | cons k ks =>
      rw [minKey?] at h
      cases hks : minKey? ks <;> rw [hks] at h <;> simp at h

/-- C1: the step contract.  Not continuing when ended or without a
current line; a current line missing from the program map is an error;
an exhausted statement list advances to the first declared line
strictly greater than the current one (none ending the program) and
continues; otherwise exactly the statement at the current index runs
with the index already advanced, continuing on success and propagating
its error through the step error channel. -/
theorem c1_step_contract :
    (∀ s : Interpreter, s.ended = true → step s = .ok (false, s))
    ∧ (∀ s : Interpreter, s.ended = false → s.current_line = none →
        step s = .ok (false, s))
    ∧ (∀ (s : Interpreter) (cur : ℕ), s.ended = false → s.current_line = some cur →
        s.program.get cur = none → step s = .error s!"Line {cur} not found")
    ∧ (∀ (s : Interpreter) (cur : ℕ) (stmts : List Statement), s.ended = false →
        s.current_line = some cur → s.program.get cur = some stmts →
        stmts.length ≤ s.statement_idx →
        step s = .ok (true, advance_to_next_line s))
    ∧ (∀ (s : Interpreter) (cur : ℕ), s.current_line = some cur →
        advance_to_next_line s =
          { s with current_line := s.program.next_key_after cur, statement_idx := 0 })
    ∧ (∀ (p : Program) (cur m : ℕ), p.next_key_after cur = some m →
        cur < m ∧ m ∈ p.keys ∧ ∀ k ∈ p.keys, cur < k → m ≤ k)
    ∧ (∀ (p : Program) (cur : ℕ), p.next_key_after cur = none →
        ∀ k ∈ p.keys, k ≤ cur)
    ∧ (∀ (s : Interpreter) (cur : ℕ) (stmts : List Statement)
        (h : s.statement_idx < stmts.length), s.ended = false →
        s.current_line = some cur → s.program.get cur = some stmts →
        step s =
          match execute_statement (stmts.get ⟨s.statement_idx, h⟩)
              { s with statement_idx := s.statement_idx + 1 } with
          | .ok s2 => .ok (true, s2)
          | .error e => .error e) := by
  refine ⟨?_, ?_, ?_, ?_, ?_, ?_, ?_, ?_⟩
  · intro s hE
    simp [step, hE]
  · intro s hE hcur
    simp [step, hE, hcur]
  · intro s cur hE hcur hget
    simp [step, hE, hcur, hget]
  · intro s cur stmts hE hcur hget hlen
    simp only [step, hE, hcur, hget]
    rw [dif_neg (by omega)]
    rfl
  · intro s cur hcur
    simp [advance_to_next_line, hcur]
  · intro p cur m h
    obtain ⟨hmem, hle⟩ := minKey?_some_spec _ m h
    rw [List.mem_filter] at hmem
    refine ⟨by simpa using hmem.2, hmem.1, ?_⟩
    intro k hk hck
    exact hle k (List.mem_filter.mpr ⟨hk, by simpa using hck⟩)
  · intro p cur h k hk
    have hnil := minKey?_eq_none _ h
    by_contra hgt
    have : k ∈ p.keys.filter (fun k => decide (cur < k)) :=
      List.mem_filter.mpr ⟨hk, by simpa using Nat.lt_of_not_le hgt⟩
    rw [hnil] at this
    simp at this
  · intro s cur stmts h hE hcur hget
    simp only [step, hE, hcur, hget]
    rw [dif_pos h]
    rfl

/-- A two-line program for the step witness. -/
def c1_prog : Program := ⟨[(10, [Statement.Rem ""]), (20, [Statement.End])]⟩

/-- An ended state over the witness program. -/
def c1_sa : Interpreter :=
  { (Interpreter.new []) with
      program := c1_prog,
      current_line := some 10,
      ended := true }

/-- A state whose line 10 statement list is exhausted. -/
def c1_sb : Interpreter :=
  { (Interpreter.new []) with
      program := c1_prog,
      current_line := some 10,
      statement_idx := 1 }

/-- A state at the start of line 10. -/
def c1_sc : Interpreter :=
  { (Interpreter.new []) with
      program := c1_prog,
      current_line := some 10 }

/-- Witness for C1: the step contract instantiated on a two-line
program — an ended state stops, an exhausted line advances to line 20,
a fresh line 10 runs its one statement and continues. -/
theorem c1_witness :
    step c1_sa = .ok (false, c1_sa)
    ∧ step c1_sb = .ok (true, advance_to_next_line c1_sb)
    ∧ (advance_to_next_line c1_sb).current_line = some 20
    ∧ c1_prog.next_key_after 10 = some 20
    ∧ 10 < 20 ∧ 20 ∈ c1_prog.keys
    ∧ step c1_sc = .ok (true, { c1_sc with statement_idx := 1 }) := by
  refine ⟨c1_step_contract.1 c1_sa rfl,
    c1_step_contract.2.2.2.1 c1_sb 10 [Statement.Rem ""] rfl rfl rfl (by decide),
    rfl, rfl, ?_, ?_, ?_⟩
  · exact (c1_step_contract.2.2.2.2.2.1 c1_prog 10 20 rfl).1
  · exact (c1_step_contract.2.2.2.2.2.1 c1_prog 10 20 rfl).2.1
  · have h := c1_step_contract.2.2.2.2.2.2.2 c1_sc 10
      [Statement.Rem ""] (by decide) rfl rfl rfl
    simpa [execute_statement] using h

end FMBasic
